import Mathlib

/-!
Verification of the agilPro ML-service allocation and assignment engine.

The Python sources under `app/ml/` are shallowly embedded: dictionaries
become structures with `Option` fields (a `.get(key, default)` access becomes
`Option.getD`), floats become exact rationals `ℚ`, Python's `x or y` on
numbers/strings becomes an explicit falsy test, and in-place mutation is
modelled by explicit state passing.  Where a Python loop has no structural
bound, a fuel parameter large enough for every actual run is supplied.
-/

namespace AgilPro

/-- Python `min(a, b)` (first argument on ties), kept kernel-computable. -/
def pyMin (a b : ℚ) : ℚ := if b < a then b else a

/-- Python `max(a, b)` (first argument on ties), kept kernel-computable. -/
def pyMax (a b : ℚ) : ℚ := if a < b then b else a

/-- Python `abs`, kept kernel-computable. -/
def pyAbs (a : ℚ) : ℚ := if a < 0 then -a else a

/-- Python `a or b` for numeric values: `a` unless `a` is falsy (zero). -/
def pyOrQ (a b : ℚ) : ℚ := if a ≠ 0 then a else b

/-- Python `a or b` for strings: `a` unless `a` is the empty string. -/
def pyOrS (a b : String) : String := if a ≠ "" then a else b

/-- Python `a or b` on optional strings (`None` and `""` are falsy). -/
def pyOrOS (a b : Option String) : Option String :=
  match a with
  | some s => if s ≠ "" then some s else b
  | none => b

/-- Python `str.lower`, written by structural recursion on the character
list so that it stays kernel-computable. -/
def strLower (s : String) : String := ⟨s.data.map Char.toLower⟩

/-- Substring test on character lists: Python `needle in hay`. -/
def containsSub (needle hay : List Char) : Bool :=
  hay.tails.any (fun t => needle.isPrefixOf t)

/-- Arithmetic mean of a list of rationals (`np.mean`). -/
def listMean (l : List ℚ) : ℚ := l.sum / l.length

/-! ## `app/ml/task_assignment.py` — TaskAssignmentModel -/

/-- A task record as consumed by `TaskAssignmentModel._score_developer`. -/
structure Task where
  required_skills : List String := []
  description : Option String := none
  complexity : String := "medium"
  estimated_story_points : ℚ := 0
  priority : String := "medium"
  task_id : Option String := none
deriving DecidableEq, Repr

/-- A developer record; optional fields mirror dictionary keys that each
call site reads with its own `.get` default. -/
structure Developer where
  user_id : Option String := none
  mid : Option String := none
  name : Option String := none
  full_name : Option String := none
  skills : List String := []
  capacity : Option ℚ := none
  availability : Option ℚ := none
  current_workload : Option ℚ := none
  velocity : Option ℚ := none
  completion_rate : Option ℚ := none
  time_accuracy : Option ℚ := none
  on_time_delivery : Option ℚ := none
  quality_score : Option ℚ := none
  collaboration_index : Option ℚ := none
  time_tracking_consistency : Option ℚ := none
  time_logging_variance : Option ℚ := none
  complexity_handled : Option String := none
  completed_similar_tasks : Option ℚ := none
  on_vacation : Bool := false
deriving DecidableEq, Repr

/-- `TaskAssignmentModel.calculate_skill_match`. -/
def calculate_skill_match (required_skills developer_skills : List String) : ℚ :=
  if required_skills = [] then 0.5
  else
    let required := (required_skills.map strLower).toFinset
    let developer := (developer_skills.map strLower).toFinset
    if developer = ∅ then 0.2
    else
      let intersection := (required ∩ developer).card
      let union := (required ∪ developer).card
      if union = 0 then 0.2
      else pyMax 0.2 ((intersection : ℚ) / (union : ℚ))

/-- `TaskAssignmentModel.calculate_workload_score`; returns
`(score, utilization, availability)`.  The branch chain reproduces the
source order: `>= 0.9`, then `<= 0.5`, then `<= 0.3`. -/
def calculate_workload_score (developer : Developer) : ℚ × ℚ × ℚ :=
  let capacity0 := pyOrQ (developer.capacity.getD 0) (pyOrQ (developer.availability.getD 0) 40)
  let workload := developer.current_workload.getD 0
  let capacity := if capacity0 ≤ 0 then 40 else capacity0
  let utilization := workload / capacity
  let score0 := 1 - utilization
  let score1 :=
    if utilization ≥ 0.9 then score0 * 0.2
    else if utilization ≤ 0.5 then score0 * 1.2
    else if utilization ≤ 0.3 then score0 * 1.3
    else score0
  let score := pyMax 0 (pyMin 1 score1)
  let availability := pyMax (capacity - workload) 0
  (score, utilization, availability)

/-- `TaskAssignmentModel.calculate_performance_score`. -/
def calculate_performance_score (developer : Developer) : ℚ :=
  listMean [developer.completion_rate.getD 0.5, developer.on_time_delivery.getD 0.5,
    developer.quality_score.getD 0.5]

/-- `TaskAssignmentModel.calculate_time_pattern_score`. -/
def calculate_time_pattern_score (developer : Developer) : ℚ :=
  pyMax 0 (pyMin 1 (developer.time_tracking_consistency.getD 0.5 -
    0.2 * developer.time_logging_variance.getD 0.3))

/-- The `complexity_map` used in `_calculate_complexity_alignment`,
with the `.get(_, 0.6)` default. -/
def complexityMap (s : String) : ℚ :=
  if s = "low" then 0.3 else if s = "medium" then 0.6 else if s = "high" then 0.9 else 0.6

/-- `TaskAssignmentModel._calculate_complexity_alignment`. -/
def complexityAlignment (task_complexity : String) (developer : Developer) : ℚ :=
  let dev_score := complexityMap (developer.complexity_handled.getD "medium")
  let task_score := complexityMap task_complexity
  1 - pyAbs (dev_score - task_score)

/-- `TaskAssignmentModel._complexity_to_numeric`. -/
def complexityToNumeric (value : String) : ℚ :=
  if value = "low" then 0.2 else if value = "medium" then 0.5
  else if value = "high" then 0.8 else 0.5

/-- The keyword list scanned by `_score_developer` when a task has no
explicit required skills but does have a description. -/
def commonSkills : List String :=
  ["javascript", "typescript", "react", "vue", "angular", "node", "python", "java",
   "ruby", "rails", "php", "swift", "kotlin", "go", "rust", "c++", "c#", "sql",
   "mongodb", "postgresql", "mysql", "redis", "docker", "kubernetes", "aws", "azure",
   "html", "css", "sass", "less", "webpack", "babel", "git", "github", "gitlab"]

/-- Required-skills resolution at the top of `_score_developer`: keyword
extraction from the description when the explicit list is empty. -/
def resolveRequiredSkills (task : Task) : List String :=
  if task.required_skills = [] then
    match task.description with
    | some d =>
      if d ≠ "" then
        let description := strLower d
        let found_skills := commonSkills.filter (fun sk => containsSub sk.data description.data)
        if found_skills ≠ [] then found_skills else task.required_skills
      else task.required_skills
    | none => task.required_skills
  else task.required_skills

/-- The 9-entry feature vector assembled in `_score_developer`. -/
def featureVector (task : Task) (developer : Developer) : List ℚ :=
  let required_skills := resolveRequiredSkills task
  [calculate_skill_match required_skills developer.skills,
   (developer.skills.length : ℚ),
   (calculate_workload_score developer).2.1,
   developer.capacity.getD 1,
   developer.velocity.getD 0,
   developer.completion_rate.getD 0,
   developer.time_accuracy.getD 0,
   developer.collaboration_index.getD 0.5,
   complexityToNumeric task.complexity]

/-- `TaskAssignmentModel._predict_probability`: with no trained classifier
the fallback is the mean of the raw feature vector; a trained model is an
external collaborator and is abstracted as a function on the features. -/
def predictProbability (model : Option (List ℚ → ℚ)) (features : List ℚ) : ℚ :=
  match model with
  | none => listMean features
  | some clf => clf features

/-- The weighted heuristic combination (`weighted_score` in
`_score_developer`). -/
def heuristicScore (task : Task) (developer : Developer) : ℚ :=
  let required_skills := resolveRequiredSkills task
  let skill_match := calculate_skill_match required_skills developer.skills
  let workload_score := (calculate_workload_score developer).1
  let performance_score := calculate_performance_score developer
  let time_pattern_score := calculate_time_pattern_score developer
  let complexity_alignment := complexityAlignment task.complexity developer
  let collaboration_score := developer.collaboration_index.getD 0.5
  0.3 * skill_match + 0.25 * performance_score + 0.2 * workload_score
    + 0.1 * time_pattern_score + 0.1 * complexity_alignment + 0.05 * collaboration_score

/-- The recommendation record produced by `_score_developer` (reasoning
text omitted; all numeric outputs kept). -/
structure Recommendation where
  user : Option String
  confidence : ℚ
  workload_impact : ℚ
  skill_match_score : ℚ
  performance_score : ℚ
  workload_score : ℚ
  estimated_new_workload : ℚ
deriving DecidableEq, Repr

/-- `TaskAssignmentModel._score_developer`. -/
def scoreDeveloper (model : Option (List ℚ → ℚ)) (task : Task) (developer : Developer) :
    Recommendation :=
  let required_skills := resolveRequiredSkills task
  let skill_match := calculate_skill_match required_skills developer.skills
  let ws := calculate_workload_score developer
  let workload_score := ws.1
  let utilization := ws.2.1
  let performance_score := calculate_performance_score developer
  let probability := predictProbability model (featureVector task developer)
  let weighted_score := heuristicScore task developer
  let confidence :=
    if weighted_score < 0.2 ∧ probability < 0.2 then
      pyMin 1 (pyMax 0.3 (0.35 + weighted_score * 0.3))
    else
      pyMin 1 (pyMax 0.3 (0.6 * weighted_score + 0.4 * probability))
  { user := pyOrOS developer.user_id developer.mid
    confidence := confidence
    workload_impact := utilization
    skill_match_score := skill_match
    performance_score := performance_score
    workload_score := workload_score
    estimated_new_workload := developer.current_workload.getD 0 + task.estimated_story_points }

/-- Concrete developer for the workload-score branch analysis: capacity 40,
current workload 8, so utilization is exactly 0.2. -/
def lightDev : Developer := { capacity := some 40, current_workload := some 8 }

/-- Concrete task used for scorer evaluations: one required skill. -/
def pyTask : Task := { required_skills := ["python"] }

/-- Concrete developer used for scorer evaluations: matching skill,
capacity 40, workload 20. -/
def pyDev : Developer := { skills := ["python"], capacity := some 40, current_workload := some 20 }

/-! ## `app/ml/dependency_analyzer.py` — DependencyAnalyzer -/

/-- Python `max` on integers, kept kernel-computable. -/
def pyMaxI (a b : ℤ) : ℤ := if a < b then b else a

/-- Stable insertion into a list sorted by `le` (ties keep the inserted
element first, matching Python's stable sort). -/
def insertLe {α : Type} (le : α → α → Bool) (a : α) : List α → List α
  | [] => [a]
  | b :: l => if le a b then a :: b :: l else b :: insertLe le a l

/-- Stable sort by a boolean comparison (Python `sorted` / `list.sort`). -/
def sortByLe {α : Type} (le : α → α → Bool) : List α → List α
  | [] => []
  | a :: l => insertLe le a (sortByLe le l)

/-- A task record as consumed by `DependencyAnalyzer`. -/
structure GraphTask where
  id : String
  dependencies : List String := []
deriving DecidableEq, Repr

/-- Python dict-key collection: first occurrence kept, in order
(`self.tasks = {task["id"]: task for task in tasks}`). -/
def insertKeys {α : Type} [DecidableEq α] (l : List α) : List α :=
  l.foldl (fun acc x => if x ∈ acc then acc else acc ++ [x]) []

/-- The ordered key list of the analyzer's `self.tasks` dictionary. -/
def taskIds (tasks : List GraphTask) : List String := insertKeys (tasks.map (·.id))

/-- Append `v` to the bucket of key `k`, creating the bucket at the end on
first use (`defaultdict(list)` insertion order). -/
def graphInsert (g : List (String × List String)) (k v : String) : List (String × List String) :=
  match g with
  | [] => [(k, [v])]
  | (k', vs) :: rest => if k' = k then (k', vs ++ [v]) :: rest else (k', vs) :: graphInsert rest k v

/-- `DependencyAnalyzer._build_graph`: edge `dependency -> task` for every
declared dependency, iterating the raw task list. -/
def buildGraph (tasks : List GraphTask) : List (String × List String) :=
  tasks.foldl (fun g t => t.dependencies.foldl (fun g dep => graphInsert g dep t.id) g) []

/-- `self.graph.get(node, [])`. -/
def graphGet (g : List (String × List String)) (n : String) : List String :=
  (g.lookup n).getD []

/-- `DependencyAnalyzer._calculate_in_degrees` as a total function
(`defaultdict(int)` semantics: absent keys read as 0). -/
def inDegrees (g : List (String × List String)) : String → ℤ :=
  fun n => (g.map (fun p => (p.2.count n : ℤ))).sum

/-- One dequeued node's neighbor pass in `topological_sort`: decrement each
neighbor's in-degree and enqueue it when the count reaches 0. -/
def topoStep (indeg : String → ℤ) (queue : List String) (neighbors : List String) :
    (String → ℤ) × List String :=
  neighbors.foldl
    (fun st nb =>
      let d := st.1 nb - 1
      (fun n => if n = nb then d else st.1 n, if d = 0 then st.2 ++ [nb] else st.2))
    (indeg, queue)

/-- The Kahn worklist loop of `topological_sort`; fuel bounds the number of
dequeues (each node is enqueued at most once, so the key count suffices). -/
def topoLoop (g : List (String × List String)) :
    ℕ → List String → (String → ℤ) → List String → List String
  | 0, _, _, ord => ord
  | _+1, [], _, ord => ord
  | fuel+1, current :: queue, indeg, ord =>
      let st := topoStep indeg queue (graphGet g current)
      topoLoop g fuel st.2 st.1 (ord ++ [current])

/-- The analyzer's stored state: ordered task-dict keys, the dependents
graph and the (mutable) in-degree map. -/
structure Analyzer where
  taskKeys : List String
  graph : List (String × List String)
  inDegree : String → ℤ

/-- `DependencyAnalyzer.__init__`. -/
def mkAnalyzer (tasks : List GraphTask) : Analyzer :=
  { taskKeys := taskIds tasks
    graph := buildGraph tasks
    inDegree := inDegrees (buildGraph tasks) }

/-- `DependencyAnalyzer.topological_sort` on the stored state (the source
copies `self.in_degree`, so the state itself is read-only here). -/
def topoSortA (a : Analyzer) : Except String (List String) :=
  let indeg := a.inDegree
  let queue := a.taskKeys.filter (fun n => indeg n == 0)
  let ord := topoLoop a.graph a.taskKeys.length queue indeg []
  if ord.length = a.taskKeys.length then Except.ok ord
  else Except.error "Cycle detected in dependencies"

/-- `topological_sort` as called on freshly constructed input. -/
def topological_sort (tasks : List GraphTask) : Except String (List String) :=
  topoSortA (mkAnalyzer tasks)

/-- Neighbor scan of the inner `dfs` of `detect_cycles`: a visited
neighbor on the recursion stack reports a cycle; an unvisited one is
explored through `next` (the recursive visit at the next fuel level). -/
def dfsGo (next : String → List String → List String → Bool × List String) :
    List String → List String → List String → Bool × List String
  | [], visited, _ => (false, visited)
  | nb :: rest, visited, recStack =>
      if nb ∈ visited then
        if nb ∈ recStack then (true, visited)
        else dfsGo next rest visited recStack
      else
        match next nb visited recStack with
        | (true, v) => (true, v)
        | (false, v) => dfsGo next rest v recStack

/-- The inner `dfs` of `detect_cycles`: mark the node visited, push it on
the recursion stack (modelled by passing the extended stack down; the
source's `rec_stack.remove` on the false path restores exactly this), and
scan its neighbors. Fuel exhaustion conservatively reports `true`; the
recursion depth is bounded by the number of distinct node names, so the
fuel supplied by `detect_cycles` is never exhausted. -/
def dfsNode (g : List (String × List String)) : ℕ → String → List String → List String →
    Bool × List String
  | 0, _, visited, _ => (true, visited)
  | f+1, node, visited, recStack =>
      dfsGo (dfsNode g f) (graphGet g node) (node :: visited) (node :: recStack)

/-- The outer loop of `detect_cycles` over the graph's keys. -/
def detectLoop (g : List (String × List String)) (fuel : ℕ) :
    List String → List String → Bool
  | [], _ => false
  | k :: rest, visited =>
      if k ∈ visited then detectLoop g fuel rest visited
      else
        match dfsNode g fuel k visited [] with
        | (true, _) => true
        | (false, v) => detectLoop g fuel rest v

/-- Fuel bound for the DFS: total number of node names mentioned. -/
def graphSize (g : List (String × List String)) : ℕ :=
  g.length + (g.map (fun p => p.2.length)).sum

/-- `DependencyAnalyzer.detect_cycles` (returns a boolean). -/
def detectCyclesA (a : Analyzer) : Bool :=
  detectLoop a.graph (graphSize a.graph + 1) (a.graph.map (·.1)) []

/-- `detect_cycles` on freshly constructed input. -/
def detect_cycles (tasks : List GraphTask) : Bool :=
  detectCyclesA (mkAnalyzer tasks)

/-- `level[k]` read access on the `defaultdict(int)`: creates the entry. -/
def levelTouch (lv : List (String × ℤ)) (k : String) : List (String × ℤ) :=
  if (lv.lookup k).isSome then lv else lv ++ [(k, 0)]

/-- `level` read (after touch). -/
def levelGet (lv : List (String × ℤ)) (k : String) : ℤ := (lv.lookup k).getD 0

/-- `level[k] = v` assignment (existing keys keep their position). -/
def levelSet (lv : List (String × ℤ)) (k : String) (v : ℤ) : List (String × ℤ) :=
  match lv with
  | [] => [(k, v)]
  | p :: rest => if p.1 = k then (k, v) :: rest else p :: levelSet rest k v

/-- BFS loop of `parallel_execution`; unlike `topological_sort` it
decrements `self.in_degree` itself, so the updated map is returned.
Python evaluates `max(level[neighbor], level[node] + 1)` left to right,
creating the `neighbor` entry before the `node` entry. -/
def parLoop (g : List (String × List String)) :
    ℕ → List String → (String → ℤ) → List (String × ℤ) →
      List (String × ℤ) × (String → ℤ)
  | 0, _, indeg, lv => (lv, indeg)
  | _+1, [], indeg, lv => (lv, indeg)
  | fuel+1, node :: queue, indeg, lv =>
      let st := (graphGet g node).foldl
        (fun (st : List (String × ℤ) × (String → ℤ) × List String) nb =>
          let lv2 := levelTouch (levelTouch st.1 nb) node
          let newVal := pyMaxI (levelGet lv2 nb) (levelGet lv2 node + 1)
          let lv3 := levelSet lv2 nb newVal
          let d := st.2.1 nb - 1
          (lv3, fun n => if n = nb then d else st.2.1 n,
           if d = 0 then st.2.2 ++ [nb] else st.2.2))
        (lv, indeg, queue)
      parLoop g fuel st.2.2 st.2.1 st.1

/-- Grouping of `level` entries into buckets sorted by level
(`sorted(parallel_levels.items())`, bucket order = `level` dict order). -/
def groupLevels (lv : List (String × ℤ)) : List (List String) :=
  let lvls := sortByLe (fun a b => decide (a ≤ b)) (insertKeys (lv.map (·.2)))
  lvls.map (fun l => (lv.filter (fun p => p.2 == l)).map (·.1))

/-- `DependencyAnalyzer.parallel_execution`: returns the level buckets and
the analyzer state it leaves behind (with the in-degree map consumed). -/
def parallelExecutionM (a : Analyzer) : List (List String) × Analyzer :=
  let queue := a.taskKeys.filter (fun n => a.inDegree n == 0)
  let st := parLoop a.graph a.taskKeys.length queue a.inDegree []
  (groupLevels st.1, { a with inDegree := st.2 })

/-- `topological_sort` as a state-passing method: the source copies the
in-degree dictionary, so the state is returned unchanged. -/
def topologicalSortM (a : Analyzer) : Except String (List String) × Analyzer :=
  (topoSortA a, a)

/-- `detect_cycles` as a state-passing method: only local sets are used. -/
def detectCyclesM (a : Analyzer) : Bool × Analyzer :=
  (detectCyclesA a, a)

/-- Concrete two-task instance: `"B"` depends on `"A"`, listed before it. -/
def twoTasks : List GraphTask := [{ id := "B", dependencies := ["A"] }, { id := "A" }]

/-- Concrete mutually blocking pair on ids `a`, `b`. -/
def cycleAB : List GraphTask := [{ id := "a", dependencies := ["b"] }, { id := "b", dependencies := ["a"] }]

/-- Concrete mutually blocking pair on disjoint ids `x`, `y`. -/
def cycleXY : List GraphTask := [{ id := "x", dependencies := ["y"] }, { id := "y", dependencies := ["x"] }]

/-- Directed edge of the dependents graph: `b` is listed among the
dependents bucket of `a`. -/
def Edge (g : List (String × List String)) (a b : String) : Prop := b ∈ graphGet g a

/-! ## `app/ml/pi_optimizer.py` — PIOptimizer -/

/-- A feature record as consumed by `PIOptimizer.optimize`. -/
structure Feature where
  id : String
  title : String := ""
  points : Option ℚ := none
  estimatedStoryPoints : Option ℚ := none
  priority : String := "medium"
  businessValue : Option ℚ := none
deriving DecidableEq, Repr

/-- A sprint record as consumed by `PIOptimizer.optimize`. -/
structure Sprint where
  id : String
  name : String := ""
  capacity : Option ℚ := none
deriving DecidableEq, Repr

/-- A dependency record; `fromFeature` models the
`dep.get("fromFeature") or dep.get("from_feature")` chain, likewise
`toFeature`. -/
structure FeatureDep where
  fromFeature : Option String := none
  toFeature : Option String := none
deriving DecidableEq, Repr

/-- `feature.get("points", 0) or feature.get("estimatedStoryPoints", 0) or 0`. -/
def featPoints (f : Feature) : ℚ :=
  pyOrQ (f.points.getD 0) (pyOrQ (f.estimatedStoryPoints.getD 0) 0)

/-- Update-or-append on an association list (Python dict assignment:
existing keys keep their position, new keys go to the end). -/
def assocSet {β : Type} (l : List (String × β)) (k : String) (v : β) : List (String × β) :=
  match l with
  | [] => [(k, v)]
  | p :: rest => if p.1 = k then (k, v) :: rest else p :: assocSet rest k v

/-- The `{feature["id"]: [] for feature in features}` initialization of
`_build_dependency_graph`. -/
def fgraphInit (features : List Feature) : List (String × List String) :=
  features.foldl (fun g f => if (g.lookup f.id).isSome then g else g ++ [(f.id, [])]) []

/-- `graph[from_id].append(to_id)`. -/
def fgraphAppend (g : List (String × List String)) (k v : String) :
    List (String × List String) :=
  g.map (fun p => if p.1 = k then (p.1, p.2 ++ [v]) else p)

/-- `PIOptimizer._build_dependency_graph`: edges are only recorded when
both endpoints are truthy and the source is a known feature. -/
def buildDependencyGraph (features : List Feature) (dependencies : List FeatureDep) :
    List (String × List String) :=
  dependencies.foldl
    (fun g dep =>
      match dep.fromFeature, dep.toFeature with
      | some from_id, some to_id =>
          if from_id ≠ "" ∧ to_id ≠ "" then
            if (g.lookup from_id).isSome then fgraphAppend g from_id to_id else g
          else g
      | _, _ => g)
    (fgraphInit features)

/-- The `priority_weights` table with its `.get(_, 4)` default. -/
def priorityWeight (p : String) : ℚ :=
  if p = "critical" then 10 else if p = "high" then 7 else if p = "medium" then 4
  else if p = "low" then 1 else 4

/-- The per-feature score of `_calculate_priority_scores`:
`priority weight * business value / (points + 1)`. -/
def priorityScore (f : Feature) : ℚ :=
  let priority := strLower f.priority
  let points := featPoints f
  let business_value := pyOrQ (f.businessValue.getD 5) 5
  priorityWeight priority * business_value / (points + 1)

/-- `PIOptimizer._calculate_priority_scores` as the lookup function
`priority_scores.get(_, 0)` (duplicate ids: last assignment wins). -/
def priorityScores (features : List Feature) : String → ℚ :=
  features.foldl (fun m f => fun x => if x = f.id then priorityScore f else m x) (fun _ => 0)

/-- The recursive `visit` of `_sort_features_by_priority`: dependencies
first, with the `temp_visited` re-entrancy guard (passed down and thereby
restored on return, exactly as the source's add/remove pair).  Fuel bounds
the visit depth; active visits carry distinct ids, so the total number of
node names suffices. -/
def sortVisit (features : List Feature) (graph : List (String × List String)) :
    ℕ → String → List String → List String × List Feature → List String × List Feature
  | 0, _, _, st => st
  | fuel+1, feature_id, temp, st =>
      if feature_id ∈ temp then st
      else if feature_id ∈ st.1 then st
      else
        let st1 := (graphGet graph feature_id).foldl
          (fun st dep => sortVisit features graph fuel dep (feature_id :: temp) st) st
        let visited := st1.1 ++ [feature_id]
        let sorted_list :=
          match features.find? (fun f => f.id == feature_id) with
          | some f => st1.2 ++ [f]
          | none => st1.2
        (visited, sorted_list)

/-- `PIOptimizer._sort_features_by_priority`. -/
def sortFeaturesByPriority (features : List Feature) (priority_scores : String → ℚ)
    (graph : List (String × List String)) : List Feature :=
  let feature_ids := sortByLe
    (fun a b => decide (priority_scores b ≤ priority_scores a)) (features.map (·.id))
  let st := feature_ids.foldl
    (fun st fid =>
      if fid ∈ st.1 then st
      else sortVisit features graph (graphSize graph + features.length + 1) fid [] st)
    ([], [])
  st.2

/-- The `sprint_capacities` dictionary as a lookup function with default 0. -/
def sprintCaps (sprints : List Sprint) : String → ℚ :=
  sprints.foldl (fun m s => fun x => if x = s.id then pyOrQ (s.capacity.getD 0) 0 else m x)
    (fun _ => 0)

/-- The sprint scan of `_allocate_features_to_sprints`: first sprint with
room is remembered, and a sprint with room that already hosts a dependency
is taken immediately (the `break`). -/
def pickGo (caps alloc : String → ℚ) (dependency_sprints : List String) (points : ℚ) :
    List Sprint → Option Sprint → Option Sprint
  | [], best => best
  | s :: rest, best =>
      if alloc s.id + points ≤ caps s.id then
        if s.id ∈ dependency_sprints then some s
        else
          match best with
          | none => pickGo caps alloc dependency_sprints points rest (some s)
          | some b => pickGo caps alloc dependency_sprints points rest (some b)
      else pickGo caps alloc dependency_sprints points rest best

/-- One emitted feature-to-sprint allocation. -/
structure FAssignment where
  featureId : String
  featureTitle : String
  sprintId : String
  sprintName : String
  points : ℚ
  priority : String
deriving DecidableEq, Repr

/-- The running state of `_allocate_features_to_sprints`. -/
structure AllocState where
  assignments : List FAssignment
  allocated : String → ℚ
  featureToSprint : List (String × String)

/-- The per-feature body of `_allocate_features_to_sprints`: scan sprints,
fall back to the first sprint when none fits, then record the assignment. -/
def allocateStep (sprints : List Sprint) (caps : String → ℚ)
    (graph : List (String × List String)) (st : AllocState) (feature : Feature) :
    AllocState :=
  let feature_id := feature.id
  let points := featPoints feature
  let dependencies := graphGet graph feature_id
  let dependency_sprints := dependencies.filterMap (fun dep => st.featureToSprint.lookup dep)
  let best := pickGo caps st.allocated dependency_sprints points sprints none
  let best2 : Option Sprint :=
    match best with
    | some s => some s
    | none => match sprints with
      | [] => none
      | s0 :: _ => some s0
  match best2 with
  | none => st
  | some s =>
      { assignments := st.assignments ++
          [{ featureId := feature_id, featureTitle := feature.title, sprintId := s.id,
             sprintName := s.name, points := points, priority := feature.priority }]
        allocated := fun n => if n = s.id then st.allocated s.id + points else st.allocated n
        featureToSprint := assocSet st.featureToSprint feature_id s.id }

/-- `PIOptimizer._allocate_features_to_sprints`. -/
def allocateFeaturesToSprints (sorted_features : List Feature) (sprints : List Sprint)
    (graph : List (String × List String)) : List FAssignment :=
  (sorted_features.foldl (allocateStep sprints (sprintCaps sprints) graph)
    { assignments := [], allocated := fun _ => 0, featureToSprint := [] }).assignments

/-- Python `round` (banker's rounding) on a rational. -/
def pyRound (x : ℚ) : ℤ :=
  let f := ⌊x⌋
  let r := x - f
  if r < 1/2 then f else if 1/2 < r then f + 1 else if f % 2 = 0 then f else f + 1

/-- `round(x, 1)`. -/
def round1 (x : ℚ) : ℚ := (pyRound (x * 10) : ℚ) / 10

/-- Per-sprint utilization entry of `_calculate_metrics`. -/
structure SprintUtil where
  sprintId : String
  allocated : ℚ
  capacity : ℚ
  utilization : ℚ
deriving DecidableEq, Repr

/-- The metrics block of `_calculate_metrics`. -/
structure PIMetrics where
  totalPoints : ℚ
  totalCapacity : ℚ
  overallUtilization : ℚ
  sprintUtilization : List SprintUtil
deriving DecidableEq, Repr

/-- `PIOptimizer._calculate_metrics`. -/
def calculateMetrics (assignments : List FAssignment) (sprints : List Sprint)
    (features : List Feature) : PIMetrics :=
  let total_points := (features.map featPoints).sum
  let total_capacity := (sprints.map (fun s => pyOrQ (s.capacity.getD 0) 0)).sum
  let sprint_utilization := sprints.map (fun s =>
    let allocated := ((assignments.filter (fun a => a.sprintId == s.id)).map (·.points)).sum
    let capacity := pyOrQ (s.capacity.getD 0) 0
    let utilization := if 0 < capacity then allocated / capacity * 100 else 0
    { sprintId := s.id, allocated := allocated, capacity := capacity,
      utilization := round1 utilization : SprintUtil })
  let overall := if 0 < total_capacity then total_points / total_capacity * 100 else 0
  { totalPoints := total_points, totalCapacity := total_capacity,
    overallUtilization := round1 overall, sprintUtilization := sprint_utilization }

/-- An overload warning of `_check_overloads`. -/
structure OverloadWarning where
  sprintId : String
  sprintName : String
  allocated : ℚ
  capacity : ℚ
  overload : ℚ
  severity : String
deriving DecidableEq, Repr

/-- `PIOptimizer._check_overloads`. -/
def checkOverloads (assignments : List FAssignment) (sprints : List Sprint) :
    List OverloadWarning :=
  let sprint_capacities := sprintCaps sprints
  let sprint_allocated := assignments.foldl
    (fun m a => assocSet m a.sprintId ((m.lookup a.sprintId).getD 0 + a.points)) []
  sprint_allocated.filterMap (fun p =>
    let capacity := sprint_capacities p.1
    if capacity < p.2 then
      let sprint_name := ((sprints.find? (fun s => s.id == p.1)).map (·.name)).getD p.1
      some { sprintId := p.1, sprintName := sprint_name, allocated := p.2,
             capacity := capacity, overload := p.2 - capacity,
             severity := if capacity * 0.2 < p.2 - capacity then "high" else "medium" }
    else none)

/-- The result record of `PIOptimizer.optimize`. -/
structure PIResult where
  assignments : List FAssignment
  metrics : PIMetrics
  warnings : List OverloadWarning
  confidence : ℚ

/-- `PIOptimizer.optimize`. -/
def optimize (features : List Feature) (sprints : List Sprint)
    (dependencies : List FeatureDep) : PIResult :=
  let dependency_graph := buildDependencyGraph features dependencies
  let priority_scores := priorityScores features
  let sorted_features := sortFeaturesByPriority features priority_scores dependency_graph
  let assignments := allocateFeaturesToSprints sorted_features sprints dependency_graph
  { assignments := assignments
    metrics := calculateMetrics assignments sprints features
    warnings := checkOverloads assignments sprints
    confidence := 0.85 }

/-- Order index of a sprint id in the chronological sprint list. -/
def sprintIndex (sprints : List Sprint) (sid : String) : ℕ :=
  (sprints.map (·.id)).indexOf sid

/-- C1 concrete features: `f1` (3 points) depends on `f2` (10 points). -/
def c1f1 : Feature := { id := "f1", points := some 3, businessValue := some 5 }

/-- C1 concrete dependency target. -/
def c1f2 : Feature := { id := "f2", points := some 10, businessValue := some 5 }

/-- C1 feature list. -/
def c1features : List Feature := [c1f1, c1f2]

/-- C1 sprints: capacity 5 then capacity 10. -/
def c1sprints : List Sprint :=
  [{ id := "s1", capacity := some 5 }, { id := "s2", capacity := some 10 }]

/-- C1 dependency edge: `f1` depends on `f2`. -/
def c1deps : List FeatureDep := [{ fromFeature := some "f1", toFeature := some "f2" }]

/-! ## `app/ml/sprint_planner.py` — SprintPlannerModel -/

/-- A raw backlog story as passed to `suggest_stories_for_sprint`. -/
structure Story where
  story_id : Option String := none
  id : Option String := none
  mid : Option String := none
  title : String := ""
  story_points : Option ℚ := none
  points : Option ℚ := none
  priority : String := "medium"
  complexity : String := "medium"
  business_value : Option ℚ := none
  blocked_by : Option String := none
  dependencies : List String := []
  required_skills : List String := []
deriving DecidableEq, Repr

/-- A normalized story (the dictionary built at the top of
`suggest_stories_for_sprint`). -/
structure NStory where
  story_id : String
  id : String
  title : String
  story_points : ℚ
  points : ℚ
  priority : String
  complexity : String
  business_value : ℚ
  blocked_by : Option String
  dependencies : List String
  required_skills : List String
deriving DecidableEq, Repr

/-- The normalization step of `suggest_stories_for_sprint`. -/
def normalizeStory (story : Story) : NStory :=
  { story_id := pyOrS (story.story_id.getD "") (pyOrS (story.id.getD "") (story.mid.getD ""))
    id := pyOrS (story.id.getD "") (pyOrS (story.story_id.getD "") (story.mid.getD ""))
    title := story.title
    story_points := pyOrQ (story.story_points.getD 0) (pyOrQ (story.points.getD 0) 0)
    points := pyOrQ (story.points.getD 0) (pyOrQ (story.story_points.getD 0) 0)
    priority := story.priority
    complexity := story.complexity
    business_value := story.business_value.getD 1
    blocked_by := story.blocked_by
    dependencies := story.dependencies
    required_skills := story.required_skills }

/-- The ambient random state: the module-level `random` and `np.random`
generators made explicit as streams of draws with their positions. -/
structure RngState where
  pyStream : ℕ → ℚ
  npStream : ℕ → ℚ
  pyIdx : ℕ
  npIdx : ℕ

/-- One draw from the `random` module generator. -/
def drawPy (rng : RngState) : ℚ × RngState :=
  (rng.pyStream rng.pyIdx, { rng with pyIdx := rng.pyIdx + 1 })

/-- One draw from the `np.random` generator. -/
def drawNp (rng : RngState) : ℚ × RngState :=
  (rng.npStream rng.npIdx, { rng with npIdx := rng.npIdx + 1 })

/-- `np.random.beta(a, b)` modelled as consuming one draw; the shape
parameters do not influence the embedded control flow, only the sampled
value (here: the stream value itself) is compared downstream. -/
def npBeta (a b : ℚ) (rng : RngState) : ℚ × RngState :=
  let r := drawNp rng
  (r.1, r.2)

/-- Swap two positions of a list (out-of-range indices leave it alone). -/
def swapAt {α : Type} (l : List α) (i j : ℕ) : List α :=
  match l.get? i, l.get? j with
  | some a, some b => (l.set i b).set j a
  | _, _ => l

/-- The Fisher–Yates loop of `random.shuffle`: for `i` from `len-1` down
to 1, `j = int(random() * (i+1))`; the modulus guards draws outside
`[0, 1)`. -/
def shuffleAux {α : Type} : List α → RngState → ℕ → List α × RngState
  | xs, rng, 0 => (xs, rng)
  | xs, rng, k+1 =>
      let r := drawPy rng
      let j := (Int.toNat ⌊r.1 * ((k + 2 : ℕ) : ℚ)⌋) % (k + 2)
      shuffleAux (swapAt xs (k+1) j) r.2 k

/-- `random.shuffle` (in-place in the source, value-passing here). -/
def pyShuffle {α : Type} (xs : List α) (rng : RngState) : List α × RngState :=
  shuffleAux xs rng (xs.length - 1)

/-- The `priority_bonus` table of `_thompson_sample`. -/
def priorityBonus (p : String) : ℚ :=
  if p = "high" then 1.5 else if p = "medium" then 1.0 else if p = "low" then 0.7 else 1.0

/-- `SprintPlannerModel._thompson_sample`: shuffle, then accept stories
whose cumulative effort fits and whose drawn probability exceeds 0.4.
Returns (selection or `None`, the shuffled list the caller's list object
now holds, random state). -/
def thompsonSample (stories : List NStory) (capacity : ℚ) (rng : RngState) :
    Option (List NStory) × List NStory × RngState :=
  let sh := pyShuffle stories rng
  let st := sh.1.foldl
    (fun (st : List NStory × ℚ × RngState) story =>
      let points := pyOrQ story.story_points story.points
      let pb := npBeta (priorityBonus story.priority * 2) 2 st.2.2
      if st.2.1 + points ≤ capacity ∧ 0.4 < pb.1 then
        (st.1 ++ [story], st.2.1 + points, pb.2)
      else (st.1, st.2.1, pb.2))
    ([], 0, sh.2)
  (if st.1 = [] then none else some st.1, sh.1, st.2.2)

/-- `SprintPlannerModel._calculate_value`. -/
def calculateValue (stories : List NStory) : ℚ :=
  stories.foldl (fun v story => v + story.business_value * priorityBonus story.priority) 0

/-- `SprintPlannerModel._calculate_complexity_risk`. -/
def complexityRisk (stories : List NStory) : ℚ :=
  if stories = [] then 0
  else listMean (stories.map (fun s =>
    if s.complexity = "low" then 0.2 else if s.complexity = "medium" then 0.5
    else if s.complexity = "high" then 0.8 else 0.5))

/-- The trial loop of `optimize_story_selection`; the shuffled list is
threaded because `random.shuffle` mutates the caller's list in place. -/
def optLoop (capacity : ℚ) :
    ℕ → List NStory → List (List NStory) → RngState →
      List (List NStory) × List NStory × RngState
  | 0, stories, best_sets, rng => (best_sets, stories, rng)
  | n+1, stories, best_sets, rng =>
      let r := thompsonSample stories capacity rng
      let best_sets' := match r.1 with
        | some sel => best_sets ++ [sel]
        | none => best_sets
      optLoop capacity n r.2.1 best_sets' r.2.2

/-- The descending stable comparison on `(value, -risk)` used to rank
retained subsets. -/
def selectionLe (a b : List NStory) : Bool :=
  decide (calculateValue b < calculateValue a ∨
    (calculateValue b = calculateValue a ∧ -complexityRisk b ≤ -complexityRisk a))

/-- `SprintPlannerModel.optimize_story_selection`. -/
def optimizeStorySelection (backlog : List NStory) (capacity : ℚ)
    (team_members : List Developer) (iterations : ℕ) (rng : RngState) :
    List (List NStory) × RngState :=
  let stories := backlog.filter (fun s =>
    match s.blocked_by with
    | none => true
    | some b => b == "")
  let r := optLoop capacity iterations stories [] rng
  ((sortByLe selectionLe r.1).take 5, r.2.2)

/-- `SprintPlannerModel._calculate_team_capacity`. -/
def calculateTeamCapacity (team_members : List Developer) (fallback : ℚ) : ℚ :=
  let capacity := team_members.foldl
    (fun acc member =>
      let remaining := member.capacity.getD 0 - member.current_workload.getD 0
      let remaining := if member.on_vacation then remaining * 0.5 else remaining
      acc + pyMax remaining 0)
    0
  pyOrQ capacity fallback

/-- The key under which a member is stored in `calculate_sprint_load`. -/
def memberKey (team_members : List Developer) (m : Developer) : String :=
  pyOrS (m.user_id.getD "") (pyOrS (m.mid.getD "") (toString (team_members.indexOf m)))

/-- `SprintPlannerModel._skill_match`. -/
def plannerSkillMatch (required skills : List String) : ℚ :=
  if required = [] then 0.5
  else
    let set_required := (required.map strLower).toFinset
    let set_skills := (skills.map strLower).toFinset
    if set_skills = ∅ then 0
    else ((set_required ∩ set_skills).card : ℚ) / (set_required.card : ℚ)

/-- `SprintPlannerModel._remaining_capacity`. -/
def remainingCapacity (member : Developer) : ℚ :=
  pyMax (member.capacity.getD 0 - member.current_workload.getD 0) 0

/-- `SprintPlannerModel._find_best_assignee` (strict improvement keeps the
first best). -/
def findBestAssignee (story : NStory) (members : List (String × Developer)) :
    Option (String × Developer) :=
  (members.foldl
    (fun (st : Option (String × Developer) × ℚ) p =>
      let remaining := remainingCapacity p.2
      if remaining < story.story_points then st
      else
        let skill_match := plannerSkillMatch story.required_skills p.2.skills
        let capacity_bonus := remaining / pyMax (p.2.capacity.getD 1) 1
        let score := 0.7 * skill_match + 0.3 * capacity_bonus
        if st.2 < score then (some p, score) else st)
    (none, -1)).1

/-- One suggested assignment of `calculate_sprint_load`. -/
structure LoadAssignment where
  story_id : String
  title : String
  story_points : ℚ
  priority : String
  suggested_assignee : String
  reason : String
deriving DecidableEq, Repr

/-- `SprintPlannerModel.calculate_sprint_load`. -/
def calculateSprintLoad (selected_stories : List NStory) (team_members : List Developer) :
    List LoadAssignment :=
  let member_states := team_members.foldl
    (fun st m => assocSet st (memberKey team_members m) m) []
  (selected_stories.foldl
    (fun (st : List (String × Developer) × List LoadAssignment) story =>
      match findBestAssignee story st.1 with
      | none => st
      | some (user_id, member) =>
          let member := { member with
            current_workload := some (member.current_workload.getD 0 + story.story_points) }
          let display := pyOrS (member.name.getD "") (pyOrS (member.full_name.getD "") user_id)
          (assocSet st.1 user_id member,
           st.2 ++ [{ story_id := pyOrS story.story_id story.id, title := story.title,
                      story_points := story.story_points, priority := story.priority,
                      suggested_assignee := display,
                      reason := display ++ " has " ++
                        toString (remainingCapacity member) ++ " points remaining" }]))
    (member_states, [])).2

/-- `SprintPlannerModel.simulate_sprint_outcome`. -/
def simulateSprintOutcome (stories : List NStory) (assignments : List LoadAssignment) : ℚ :=
  if stories = [] then 0
  else
    let base_probability := 0.6
    let complexity_risk := complexityRisk stories
    let dependency_penalty :=
      ((stories.filter (fun s => !s.dependencies.isEmpty)).length : ℚ) * 0.05
    pyMax 0.1 (pyMin 0.95 (base_probability + 0.2 - complexity_risk - dependency_penalty))

/-- `SprintPlannerModel._assess_risks`. -/
def assessRisks (stories : List NStory) (assignments : List LoadAssignment) : List String :=
  let high_complexity := stories.filter (fun s => s.complexity == "high")
  let risks1 :=
    if (stories.length : ℚ) * 0.4 < (high_complexity.length : ℚ) then
      [toString high_complexity.length ++ " stories have high complexity"] else []
  let dependencies := stories.filter (fun s => !s.dependencies.isEmpty)
  let risks2 :=
    if dependencies ≠ [] then [toString dependencies.length ++ " stories have dependencies"]
    else []
  let overloaded := assignments.filter (fun a => containsSub "100%".data a.reason.data)
  let risks3 := if overloaded ≠ [] then ["One or more developers at 100% capacity"] else []
  let risks := risks1 ++ risks2 ++ risks3
  if risks = [] then ["No major risks identified"] else risks

/-- An alternative-selection summary. -/
structure AltSelection where
  story_ids : List String
  total_points : ℚ
deriving DecidableEq, Repr

/-- The result record of `suggest_stories_for_sprint`. -/
structure SuggestResult where
  suggested_stories : List LoadAssignment
  total_story_points : ℚ
  team_capacity : ℚ
  capacity_utilization : String
  predicted_completion_probability : ℚ
  risk_factors : List String
  alternative_selections : List AltSelection
deriving DecidableEq, Repr

/-- Python `round` to an integer, then `%` suffix (an `:.0f` format). -/
def pctString (x : ℚ) : String := toString (pyRound x) ++ "%"

/-- `SprintPlannerModel.suggest_stories_for_sprint`. -/
def suggestStoriesForSprint (backlog : List Story) (team_capacity : ℚ)
    (team_members : List Developer) (velocity : Option ℚ) (rng : RngState) :
    SuggestResult × RngState :=
  let normalized_backlog := backlog.map normalizeStory
  let effective_capacity := calculateTeamCapacity team_members team_capacity
  let r := optimizeStorySelection normalized_backlog effective_capacity team_members 200 rng
  let candidate_sets := r.1
  let best_selection := candidate_sets.headD []
  let total_points := (best_selection.map (fun s => pyOrQ s.story_points s.points)).sum
  let utilization := if effective_capacity ≠ 0 then total_points / effective_capacity else 0
  let assignments := calculateSprintLoad best_selection team_members
  let completion_probability := simulateSprintOutcome best_selection assignments
  let risks := assessRisks best_selection assignments
  ({ suggested_stories := assignments
     total_story_points := total_points
     team_capacity := effective_capacity
     capacity_utilization := pctString (utilization * 100)
     predicted_completion_probability := completion_probability
     risk_factors := risks
     alternative_selections := ((candidate_sets.drop 1).take 3).map (fun combo =>
       { story_ids := combo.map (fun s => pyOrS s.story_id s.id)
         total_points := (combo.map (fun st => pyOrQ st.story_points st.points)).sum }) },
   r.2)

/-! ## `app/ml/workload_balancer.py` — WorkloadBalancer -/

/-- `round(x, 2)`. -/
def pyRound2 (x : ℚ) : ℚ := (pyRound (x * 100) : ℚ) / 100

/-- `developer_lookup` from `task_assignment.py`. -/
def developerLookup (user_id : Option String) (developers : List Developer) : String :=
  match developers.find? (fun d => d.user_id == user_id || d.mid == user_id) with
  | some d => pyOrS (d.name.getD "") (pyOrS (d.full_name.getD "") "Unknown")
  | none => "Unknown"

/-- One entry of the `get_recommendations` payload (reasoning and the
formatted workload strings omitted; all numeric outputs kept). -/
structure RecPayload where
  user_id : Option String
  user_name : String
  confidence : ℚ
  workload_percentage : ℚ
  skill_match_score : ℚ
  performance_score : ℚ
  workload_score : ℚ
deriving DecidableEq, Repr

/-- `TaskAssignmentModel.get_recommendations`. -/
def getRecommendations (model : Option (List ℚ → ℚ)) (task : Task)
    (available_developers : List Developer) (top_n : ℕ) : List RecPayload :=
  if available_developers = [] then []
  else
    let recommendations := available_developers.map (scoreDeveloper model task)
    let sorted := sortByLe (fun a b => decide (b.confidence ≤ a.confidence)) recommendations
    (sorted.take top_n).map (fun rec =>
      { user_id := rec.user
        user_name := developerLookup rec.user available_developers
        confidence := pyRound2 rec.confidence
        workload_percentage := pyRound2 (rec.workload_impact * 100)
        skill_match_score := pyRound2 rec.skill_match_score
        performance_score := rec.performance_score
        workload_score := rec.workload_score })

/-- `WorkloadBalancer._select_best_fit`: first recommended developer whose
projected load (current workload plus the rounded skill-match score, as in
the source) stays within capacity. -/
def selectBestFit (recs : List RecPayload) (team_state : List (String × Developer)) :
    Option (String × RecPayload) :=
  match recs with
  | [] => none
  | rec :: rest =>
      match rec.user_id with
      | none => selectBestFit rest team_state
      | some uid =>
          match team_state.lookup uid with
          | none => selectBestFit rest team_state
          | some member =>
              let capacity := member.capacity.getD 0
              let projected := member.current_workload.getD 0 + rec.skill_match_score
              if capacity ≤ 0 ∨ capacity * 1.0 < projected then selectBestFit rest team_state
              else some (uid, rec)

/-- One balanced assignment of `balance_workload` (reason string omitted). -/
structure BalancedAssignment where
  task_id : Option String
  assign_to : String
  confidence : ℚ
  workload_percentage : ℚ
deriving DecidableEq, Repr

/-- A before/after utilization line of `_summarize_utilization`. -/
structure UtilizationEntry where
  user : String
  before : String
  after : String
deriving DecidableEq, Repr

/-- The result record of `balance_workload`. -/
structure BalanceResult where
  balanced_assignments : List BalancedAssignment
  balance_score : ℚ
  team_utilization : List UtilizationEntry
deriving DecidableEq, Repr

/-- `WorkloadBalancer.calculate_balance_score`: clamp each utilization to
at most 1, then `max(0, 1 - variance)` with `np.var`. -/
def calculate_balance_score (team_state : List Developer) : ℚ :=
  let workloads := team_state.map (fun member =>
    pyMin (member.current_workload.getD 0 / pyMax (member.capacity.getD (1/1000)) (1/1000)) 1)
  if workloads = [] then 0
  else
    let n : ℚ := workloads.length
    let mean := workloads.sum / n
    let variance := (workloads.map (fun x => (x - mean)^2)).sum / n
    pyMax 0 (1 - variance)

/-- The `f"{value}/{capacity} ({pct:.0f}%)"` line of
`_summarize_utilization`. -/
def fmtUtil (value capacity : ℚ) : String :=
  toString value ++ "/" ++ toString capacity ++ " (" ++
    toString (pyRound (if capacity = 0 then 0 else value / capacity * 100)) ++ "%)"

/-- `WorkloadBalancer._summarize_utilization`. -/
def summarizeUtilization (before_members : List Developer)
    (after_state : List (String × Developer)) : List UtilizationEntry :=
  before_members.map (fun member =>
    let user_id := member.user_id.getD ""
    let capacity := member.capacity.getD 0
    let before := member.current_workload.getD 0
    let after := match after_state.lookup user_id with
      | some m => m.current_workload.getD before
      | none => before
    { user := match member.name with | some n => n | none => user_id
      before := fmtUtil before capacity
      after := fmtUtil after capacity })

/-- In-place value update of an association list. -/
def assocUpdate {β : Type} (l : List (String × β)) (k : String) (f : β → β) :
    List (String × β) :=
  l.map (fun p => if p.1 = k then (p.1, f p.2) else p)

/-- `WorkloadBalancer.balance_workload`: empty inputs return an empty
result dictionary (no exception is raised anywhere in the function). -/
def balanceWorkload (model : Option (List ℚ → ℚ)) (tasks : List Task)
    (team_members : List Developer) : BalanceResult :=
  if tasks = [] ∨ team_members = [] then
    { balanced_assignments := [], balance_score := 0, team_utilization := [] }
  else
    let team_state0 := team_members.foldl
      (fun st m => assocSet st (m.user_id.getD "") m) []
    let sorted_tasks := sortByLe (fun a b => decide (b.priority ≤ a.priority)) tasks
    let final := sorted_tasks.foldl
      (fun (st : List (String × Developer) × List BalancedAssignment) task =>
        let recommendations := getRecommendations model task team_members 3
        match selectBestFit recommendations st.1 with
        | none => st
        | some (user_id, rec) =>
            (assocUpdate st.1 user_id (fun mem =>
              { mem with
                current_workload := some (mem.current_workload.getD 0 +
                  task.estimated_story_points) }),
             st.2 ++ [{ task_id := task.task_id, assign_to := user_id,
                        confidence := rec.confidence,
                        workload_percentage := rec.workload_percentage }]))
      (team_state0, [])
    { balanced_assignments := final.2
      balance_score := calculate_balance_score (final.1.map (·.2))
      team_utilization := summarizeUtilization team_members final.1 }

/-- An all-zero random state for concrete runs. -/
def zeroRng : RngState := { pyStream := fun _ => 0, npStream := fun _ => 0, pyIdx := 0, npIdx := 0 }

/-- Concrete two-member team for witnesses. -/
def twoMembers : List Developer :=
  [{ user_id := some "u1", capacity := some 40, current_workload := some 10 },
   { user_id := some "u2", capacity := some 40, current_workload := some 30 }]

/-- Edge multiplicity of the dependents graph, as an integer. -/
def cnt (g : List (String × List String)) (m n : String) : ℤ :=
  ((graphGet g m).count n : ℤ)

/-- The loop invariant of Kahn's algorithm in `topological_sort`:
`queue`/`ord` hold distinct keys, `indeg` is the initial in-degree minus
the edges out of emitted nodes, queued and emitted nodes have in-degree 0,
unreached keys have non-zero in-degree, emitted nodes see all their
in-neighbors emitted earlier, and queued nodes see them emitted. -/
structure KInv (g : List (String × List String)) (keys : List String)
    (queue : List String) (indeg : String → ℤ) (ord : List String) : Prop where
  hqk : ∀ n ∈ queue, n ∈ keys
  hok : ∀ n ∈ ord, n ∈ keys
  hnd : (ord ++ queue).Nodup
  hind : ∀ n, indeg n = inDegrees g n - ((ord.map (fun m => cnt g m n)).sum)
  hqz : ∀ n ∈ queue, indeg n = 0
  hoz : ∀ n ∈ ord, indeg n = 0
  hcomp : ∀ n ∈ keys, n ∉ ord → n ∉ queue → indeg n ≠ 0
  hord : ∀ n ∈ ord, ∀ m, 0 < cnt g m n → m ∈ ord ∧ ord.indexOf m < ord.indexOf n
  hqe : ∀ n ∈ queue, ∀ m, 0 < cnt g m n → m ∈ ord

/-- The direct dependency relation declared by a task list: `n` depends on
`m`. -/
def DependsOn (tasks : List GraphTask) (m n : String) : Prop :=
  ∃ t ∈ tasks, t.id = n ∧ m ∈ t.dependencies

/-! ## Helper lemmas and claim theorems -/

/-- `pyMin` is bounded by both arguments; `pyMax` dominates both. -/
theorem pyMin_le_left (a b : ℚ) : pyMin a b ≤ a := by
  unfold pyMin; split <;> linarith

theorem pyMin_le_right (a b : ℚ) : pyMin a b ≤ b := by
  unfold pyMin; split <;> linarith

theorem le_pyMax_left (a b : ℚ) : a ≤ pyMax a b := by
  unfold pyMax; split <;> linarith

theorem le_pyMax_right (a b : ℚ) : b ≤ pyMax a b := by
  unfold pyMax; split <;> linarith

theorem pyMax_le {a b c : ℚ} (h1 : a ≤ c) (h2 : b ≤ c) : pyMax a b ≤ c := by
  unfold pyMax; split <;> assumption

theorem le_pyMin {a b c : ℚ} (h1 : c ≤ a) (h2 : c ≤ b) : c ≤ pyMin a b := by
  unfold pyMin; split <;> assumption

/-- The clamp `pyMin 1 (pyMax 0.3 x)` always lands in `[0.3, 1]`. -/
theorem clamp_third_bounds (x : ℚ) :
    0.3 ≤ pyMin 1 (pyMax 0.3 x) ∧ pyMin 1 (pyMax 0.3 x) ≤ 1 := by
  refine ⟨le_pyMin (by norm_num) (le_pyMax_left _ _), pyMin_le_left _ _⟩


/-- Unfolding of the confidence computed by `scoreDeveloper` into the two
clamp branches. -/
theorem scoreDeveloper_confidence_eq (model : Option (List ℚ → ℚ)) (task : Task)
    (developer : Developer) :
    (scoreDeveloper model task developer).confidence =
      if heuristicScore task developer < 0.2 ∧
          predictProbability model (featureVector task developer) < 0.2 then
        pyMin 1 (pyMax 0.3 (0.35 + heuristicScore task developer * 0.3))
      else
        pyMin 1 (pyMax 0.3 (0.6 * heuristicScore task developer +
          0.4 * predictProbability model (featureVector task developer))) := rfl

theorem complexityToNumeric_medium : complexityToNumeric "medium" = 0.5 := by
  unfold complexityToNumeric
  rw [if_neg (by decide), if_pos rfl]

theorem pyDev_workload_eval : calculate_workload_score pyDev = (3/5, 1/2, 20) := by
  norm_num [calculate_workload_score, pyDev, pyOrQ, pyMin, pyMax]

theorem pyTask_skill_eval : calculate_skill_match ["python"] ["python"] = 1 := by
  norm_num [calculate_skill_match, pyMax]

theorem pyTask_heuristic_eval : heuristicScore pyTask pyDev = 357/500 := by
  unfold heuristicScore
  dsimp only
  rw [show resolveRequiredSkills pyTask = ["python"] from rfl,
    show pyDev.skills = ["python"] from rfl, pyTask_skill_eval, pyDev_workload_eval]
  norm_num [pyTask, pyDev, calculate_performance_score, calculate_time_pattern_score,
    complexityAlignment, complexityMap, pyAbs, listMean, pyMin, pyMax]

theorem pyTask_feature_mean_eval : listMean (featureVector pyTask pyDev) = 29/6 := by
  unfold featureVector
  dsimp only
  rw [show resolveRequiredSkills pyTask = ["python"] from rfl,
    show pyDev.skills = ["python"] from rfl, pyTask_skill_eval, pyDev_workload_eval,
    show complexityToNumeric pyTask.complexity = 0.5 from complexityToNumeric_medium]
  norm_num [pyTask, pyDev, listMean]

theorem pyTask_confidence_eval : (scoreDeveloper none pyTask pyDev).confidence = 1 := by
  rw [scoreDeveloper_confidence_eq]
  have hp : predictProbability none (featureVector pyTask pyDev) =
      listMean (featureVector pyTask pyDev) := rfl
  rw [hp, pyTask_heuristic_eval, pyTask_feature_mean_eval]
  norm_num [pyMin, pyMax]

/-- C3: for every task and every candidate developer, the confidence
returned by `_score_developer` lies in [0.3, 1.0]; and whenever the
required-skills set is non-empty, `calculate_skill_match` lies in
[0.2, 1.0]. -/
theorem confidence_and_skill_match_bounds :
    (∀ (model : Option (List ℚ → ℚ)) (task : Task) (developer : Developer),
        0.3 ≤ (scoreDeveloper model task developer).confidence ∧
        (scoreDeveloper model task developer).confidence ≤ 1) ∧
    (∀ required_skills developer_skills : List String, required_skills ≠ [] →
        0.2 ≤ calculate_skill_match required_skills developer_skills ∧
        calculate_skill_match required_skills developer_skills ≤ 1) := by
  constructor
  · intro model task developer
    rw [scoreDeveloper_confidence_eq]
    split
    · exact clamp_third_bounds _
    · exact clamp_third_bounds _
  · intro required_skills developer_skills h
    unfold calculate_skill_match
    rw [if_neg h]
    dsimp only
    split_ifs with hdev hun
    · norm_num
    · norm_num
    · refine ⟨le_pyMax_left _ _, pyMax_le (by norm_num) ?_⟩
      have hcard : ((required_skills.map strLower).toFinset ∩
            (developer_skills.map strLower).toFinset).card ≤
          ((required_skills.map strLower).toFinset ∪
            (developer_skills.map strLower).toFinset).card :=
        Finset.card_le_card (Finset.Subset.trans Finset.inter_subset_left
          Finset.subset_union_left)
      have hpos : (0 : ℚ) < (((required_skills.map strLower).toFinset ∪
          (developer_skills.map strLower).toFinset).card : ℚ) := by
        exact_mod_cast Nat.pos_of_ne_zero hun
      rw [div_le_one hpos]
      exact_mod_cast hcard

/-- Witness for C3 at a concrete task, developer and skill pair. -/
theorem confidence_and_skill_match_bounds_witness :
    (0.3 ≤ (scoreDeveloper none pyTask pyDev).confidence ∧
      (scoreDeveloper none pyTask pyDev).confidence ≤ 1) ∧
    (0.2 ≤ calculate_skill_match ["python"] [] ∧
      calculate_skill_match ["python"] [] ≤ 1) :=
  ⟨confidence_and_skill_match_bounds.1 none pyTask pyDev,
   confidence_and_skill_match_bounds.2 ["python"] [] (by decide)⟩

/-- C4: at utilization 0.2 the code multiplies the workload score by 1.2
(the `<= 0.5` branch), not 1.3 as the claim states — the `<= 0.3` branch is
shadowed and unreachable — so the returned score is 0.96, where the claimed
formula clamp(0.8·1.3, 0, 1) gives 1. -/
theorem workload_score_dead_branch_eval :
    calculate_workload_score lightDev = (24/25, 1/5, 32) ∧
    (24/25 : ℚ) ≠ pyMax 0 (pyMin 1 ((1 - 1/5) * 1.3)) := by
  constructor
  · norm_num [calculate_workload_score, lightDev, pyOrQ, pyMin, pyMax]
  · norm_num [pyMin, pyMax]

/-- C5 counterexample: with no trained model available the confidence at
`pyTask`/`pyDev` is 1, while the clamp of the heuristic score alone is
0.714 — the fallback does not substitute the heuristic alone. -/
theorem fallback_confidence_not_heuristic_clamp :
    (scoreDeveloper none pyTask pyDev).confidence = 1 ∧
    pyMin 1 (pyMax 0.3 (heuristicScore pyTask pyDev)) = 357/500 ∧
    (scoreDeveloper none pyTask pyDev).confidence ≠
      pyMin 1 (pyMax 0.3 (heuristicScore pyTask pyDev)) := by
  refine ⟨pyTask_confidence_eval, ?_, ?_⟩
  · rw [pyTask_heuristic_eval]
    norm_num [pyMin, pyMax]
  · rw [pyTask_confidence_eval, pyTask_heuristic_eval]
    norm_num [pyMin, pyMax]

/-- C5 amended: when no trained model is available the substituted
probability is the mean of the 9-entry raw feature vector, so outside the
sparse-data branch the confidence is
clamp(0.6·heuristic + 0.4·featureMean, 0.3, 1.0). -/
theorem fallback_confidence_blends_feature_mean (task : Task) (developer : Developer)
    (h : ¬(heuristicScore task developer < 0.2 ∧
        listMean (featureVector task developer) < 0.2)) :
    (scoreDeveloper none task developer).confidence =
      pyMin 1 (pyMax 0.3 (0.6 * heuristicScore task developer +
        0.4 * listMean (featureVector task developer))) := by
  rw [scoreDeveloper_confidence_eq,
    show predictProbability none (featureVector task developer) =
      listMean (featureVector task developer) from rfl, if_neg h]

/-- Witness for the amended C5 statement at `pyTask`/`pyDev`. -/
theorem fallback_confidence_blends_feature_mean_witness :
    (scoreDeveloper none pyTask pyDev).confidence =
      pyMin 1 (pyMax 0.3 (0.6 * heuristicScore pyTask pyDev +
        0.4 * listMean (featureVector pyTask pyDev))) :=
  fallback_confidence_blends_feature_mean pyTask pyDev (by
    rw [pyTask_heuristic_eval, pyTask_feature_mean_eval]
    norm_num)

/-- Accessibility transfers to the transitive closure. -/
theorem accTransGen {α : Type} {r : α → α → Prop} : ∀ {a : α}, Acc r a →
    Acc (Relation.TransGen r) a := by
  intro a h
  induction h with
  | intro x _ ih =>
    refine Acc.intro x (fun y hy => ?_)
    cases hy with
    | single hyx => exact ih y hyx
    | tail hyb hbx => exact (ih _ hbx).inv hyb

/-- An accessible element admits no self-loop. -/
theorem notRelSelfOfAcc {α : Type} {r : α → α → Prop} {a : α} (h : Acc r a) : ¬ r a a := by
  induction h with
  | intro x _ ih => exact fun hxx => ih x hxx hxx

/-- A node with a non-empty dependents bucket is one of the graph's keys. -/
theorem mem_keys_of_graphGet_ne_nil : ∀ (g : List (String × List String)) (n : String),
    graphGet g n ≠ [] → n ∈ g.map (·.1) := by
  intro g n
  induction g with
  | nil => intro h; simp [graphGet] at h
  | cons p rest ih =>
    intro h
    by_cases hk : n = p.1
    · simp [hk]
    · have h' : graphGet rest n ≠ [] := by
        simpa [graphGet, List.lookup, beq_false_of_ne hk] using h
      simp [ih h']

/-- False result of the neighbor scan: everything stays visited, the scan
only closes accessible nodes, and every neighbor ends visited and off the
recursion stack. -/
theorem dfsGo_false_spec (g : List (String × List String)) (f : ℕ)
    (IH : ∀ node visited recStack out,
      (∀ v ∈ recStack, v ∈ visited) →
      (∀ v ∈ visited, v ∉ recStack → Acc (fun y x => Edge g x y) v) →
      dfsNode g f node visited recStack = (false, out) →
      (∀ v ∈ visited, v ∈ out) ∧ node ∈ out ∧ (∀ v ∈ recStack, v ∈ out) ∧
        (∀ v ∈ out, v ∉ recStack → Acc (fun y x => Edge g x y) v)) :
    ∀ (nbrs : List String) (visited recStack out : List String),
      (∀ v ∈ recStack, v ∈ visited) →
      (∀ v ∈ visited, v ∉ recStack → Acc (fun y x => Edge g x y) v) →
      dfsGo (dfsNode g f) nbrs visited recStack = (false, out) →
      (∀ v ∈ visited, v ∈ out) ∧ (∀ v ∈ recStack, v ∈ out) ∧
        (∀ v ∈ out, v ∉ recStack → Acc (fun y x => Edge g x y) v) ∧
        (∀ nb ∈ nbrs, nb ∈ out ∧ nb ∉ recStack) := by
  intro nbrs
  induction nbrs with
  | nil =>
    intro visited recStack out hsub hacc heq
    rw [dfsGo] at heq
    injection heq with _ h
    subst h
    exact ⟨fun v hv => hv, hsub, hacc, by simp⟩
  | cons nb rest ih =>
    intro visited recStack out hsub hacc heq
    rw [dfsGo] at heq
    by_cases hv : nb ∈ visited
    · rw [if_pos hv] at heq
      by_cases hr : nb ∈ recStack
      · rw [if_pos hr] at heq
        injection heq with hbad
        cases hbad
      · rw [if_neg hr] at heq
        obtain ⟨h1, h2, h3, h4⟩ := ih visited recStack out hsub hacc heq
        refine ⟨h1, h2, h3, ?_⟩
        intro x hx
        rcases List.mem_cons.mp hx with hx | hx
        · subst hx; exact ⟨h1 x hv, hr⟩
        · exact h4 x hx
    · rw [if_neg hv] at heq
      rcases hnode : dfsNode g f nb visited recStack with ⟨b, v⟩
      rw [hnode] at heq
      cases b with
      | true =>
        injection heq with hbad
        cases hbad
      | false =>
        obtain ⟨hn1, hn2, hn3, hn4⟩ := IH nb visited recStack v hsub hacc hnode
        have hnbr : nb ∉ recStack := fun hmem => hv (hsub nb hmem)
        obtain ⟨h1, h2, h3, h4⟩ := ih v recStack out hn3 hn4 heq
        refine ⟨fun x hx => h1 x (hn1 x hx), h2, h3, ?_⟩
        intro x hx
        rcases List.mem_cons.mp hx with hx | hx
        · subst hx; exact ⟨h1 x hn2, hnbr⟩
        · exact h4 x hx

/-- False result of the recursive visit: the visited set only grows, the
node itself ends visited, and every node off the caller's stack that ends
visited is accessible. -/
theorem dfsNode_false_spec (g : List (String × List String)) :
    ∀ (f : ℕ) (node : String) (visited recStack out : List String),
      (∀ v ∈ recStack, v ∈ visited) →
      (∀ v ∈ visited, v ∉ recStack → Acc (fun y x => Edge g x y) v) →
      dfsNode g f node visited recStack = (false, out) →
      (∀ v ∈ visited, v ∈ out) ∧ node ∈ out ∧ (∀ v ∈ recStack, v ∈ out) ∧
        (∀ v ∈ out, v ∉ recStack → Acc (fun y x => Edge g x y) v) := by
  intro f
  induction f with
  | zero =>
    intro node visited recStack out _ _ heq
    rw [dfsNode] at heq
    injection heq with hbad
    cases hbad
  | succ f ih =>
    intro node visited recStack out hsub hacc heq
    rw [dfsNode] at heq
    have hsub' : ∀ v ∈ node :: recStack, v ∈ node :: visited := by
      intro v hv
      rcases List.mem_cons.mp hv with hv | hv
      · simp [hv]
      · simp [hsub v hv]
    have hacc' : ∀ v ∈ node :: visited, v ∉ node :: recStack →
        Acc (fun y x => Edge g x y) v := by
      intro v hv hr
      rcases List.mem_cons.mp hv with hv | hv
      · exact absurd (by simp [hv] : v ∈ node :: recStack) hr
      · exact hacc v hv (fun hmem => hr (List.mem_cons_of_mem _ hmem))
    obtain ⟨h1, h2, h3, h4⟩ :=
      dfsGo_false_spec g f ih (graphGet g node) (node :: visited) (node :: recStack) out
        hsub' hacc' heq
    refine ⟨fun v hv => h1 v (List.mem_cons_of_mem _ hv), h1 node (by simp),
      fun v hv => h2 v (List.mem_cons_of_mem _ hv), ?_⟩
    intro v hv hr
    by_cases hvn : v = node
    · subst hvn
      refine Acc.intro v (fun y hy => ?_)
      obtain ⟨hy1, hy2⟩ := h4 y hy
      exact h3 y hy1 hy2
    · exact h3 v hv (by simp [hvn, hr])

/-- False result of the outer loop: every processed key is accessible. -/
theorem detectLoop_false_spec (g : List (String × List String)) (fuel : ℕ) :
    ∀ (ks visited : List String),
      (∀ v ∈ visited, Acc (fun y x => Edge g x y) v) →
      detectLoop g fuel ks visited = false →
      ∀ k ∈ ks, Acc (fun y x => Edge g x y) k := by
  intro ks
  induction ks with
  | nil => intro visited _ _ k hk; cases hk
  | cons k rest ih =>
    intro visited hv heq
    rw [detectLoop] at heq
    by_cases hk : k ∈ visited
    · rw [if_pos hk] at heq
      intro x hx
      rcases List.mem_cons.mp hx with hx | hx
      · subst hx; exact hv x hk
      · exact ih visited hv heq x hx
    · rw [if_neg hk] at heq
      rcases hnode : dfsNode g fuel k visited [] with ⟨b, v⟩
      rw [hnode] at heq
      cases b with
      | true => cases heq
      | false =>
        obtain ⟨hn1, hn2, _, hn4⟩ :=
          dfsNode_false_spec g fuel k visited [] v (by simp)
            (fun x hx _ => hv x hx) hnode
        have hv' : ∀ x ∈ v, Acc (fun y x => Edge g x y) x :=
          fun x hx => hn4 x hx (by simp)
        intro x hx
        rcases List.mem_cons.mp hx with hx | hx
        · subst hx; exact hv' x hn2
        · exact ih v hv' heq x hx

/-- C6 amended: the cycle detector reports cycle existence only as a
boolean — on every input whose dependents graph contains a directed cycle,
`detect_cycles` returns `true` (not the cycle path). -/
theorem detect_cycles_true_of_cycle (tasks : List GraphTask)
    (h : ∃ n, Relation.TransGen (Edge (buildGraph tasks)) n n) :
    detect_cycles tasks = true := by
  by_contra hfalse
  have hf : detect_cycles tasks = false := by
    cases hdc : detect_cycles tasks
    · rfl
    · exact absurd hdc hfalse
  obtain ⟨n, hn⟩ := h
  have hloop : detectLoop (buildGraph tasks) (graphSize (buildGraph tasks) + 1)
      ((buildGraph tasks).map (·.1)) [] = false := hf
  have hkeys := detectLoop_false_spec (buildGraph tasks)
    (graphSize (buildGraph tasks) + 1) ((buildGraph tasks).map (·.1)) []
    (by simp) hloop
  obtain ⟨b, hnb, _⟩ := Relation.TransGen.head'_iff.mp hn
  have hne : graphGet (buildGraph tasks) n ≠ [] := List.ne_nil_of_mem hnb
  have hmem : n ∈ (buildGraph tasks).map (·.1) :=
    mem_keys_of_graphGet_ne_nil (buildGraph tasks) n hne
  have hacc : Acc (fun y x => Edge (buildGraph tasks) x y) n := hkeys n hmem
  have hswap : Relation.TransGen (fun y x => Edge (buildGraph tasks) x y) n n :=
    Relation.transGen_swap.mpr hn
  exact notRelSelfOfAcc (accTransGen hacc) hswap

/-- Witness for the amended C6 statement: the two-cycle on `a`, `b`. -/
theorem detect_cycles_true_of_cycle_witness : detect_cycles cycleAB = true :=
  detect_cycles_true_of_cycle cycleAB
    ⟨"a", Relation.TransGen.tail
      (Relation.TransGen.single (show Edge (buildGraph cycleAB) "a" "b" by unfold Edge; decide))
      (show Edge (buildGraph cycleAB) "b" "a" by unfold Edge; decide)⟩

/-- C6 counterexample: two graphs with different mutually blocking pairs
(`a`,`b` versus `x`,`y`) produce the identical output `true`, so
`detect_cycles` returns merely a boolean, not the involved cycle path. -/
theorem detect_cycles_merely_boolean :
    detect_cycles cycleAB = detect_cycles cycleXY ∧ detect_cycles cycleAB = true :=
  ⟨rfl, rfl⟩

/-- C9 counterexample: on `twoTasks`, `topological_sort` returns
`["A", "B"]` before `parallel_execution` but `["B", "A"]` on the state
`parallel_execution` leaves behind — the stored in-degree map was mutated. -/
theorem parallel_execution_changes_topo_order :
    (topologicalSortM (mkAnalyzer twoTasks)).1 = Except.ok ["A", "B"] ∧
    (topologicalSortM (parallelExecutionM (mkAnalyzer twoTasks)).2).1 =
      Except.ok ["B", "A"] ∧
    (["A", "B"] : List String) ≠ ["B", "A"] :=
  ⟨rfl, rfl, by decide⟩

/-- C9 amended: `topological_sort` and `detect_cycles` leave the analyzer
state unchanged (the former copies the in-degree map), so consecutive
`topological_sort` calls agree; `parallel_execution` leaves the task keys
and the graph unchanged but replaces the stored in-degree map, so a
subsequent `topological_sort` may return a different order. -/
theorem analyzer_methods_frame (a : Analyzer) :
    (topologicalSortM a).2 = a ∧ (detectCyclesM a).2 = a ∧
    (topologicalSortM (topologicalSortM a).2).1 = (topologicalSortM a).1 ∧
    (parallelExecutionM a).2.taskKeys = a.taskKeys ∧
    (parallelExecutionM a).2.graph = a.graph :=
  ⟨rfl, rfl, rfl, rfl, rfl⟩

theorem graphGet_cons_self (k : String) (vs : List String)
    (rest : List (String × List String)) : graphGet ((k, vs) :: rest) k = vs := by
  simp [graphGet, List.lookup]

theorem graphGet_cons_ne (k m : String) (vs : List String)
    (rest : List (String × List String)) (h : m ≠ k) :
    graphGet ((k, vs) :: rest) m = graphGet rest m := by
  simp [graphGet, List.lookup, beq_false_of_ne h]

theorem graphGet_graphInsert (g : List (String × List String)) (k v x : String) :
    graphGet (graphInsert g k v) x =
      if x = k then graphGet g x ++ [v] else graphGet g x := by
  induction g with
  | nil =>
    by_cases hx : x = k
    · subst hx; simp [graphInsert, graphGet_cons_self, graphGet, List.lookup]
    · simp [graphInsert, graphGet, List.lookup, beq_false_of_ne hx, hx]
  | cons p rest ih =>
    obtain ⟨k', vs⟩ := p
    by_cases hk : k' = k
    · subst hk
      rw [graphInsert]
      simp only [if_pos rfl]
      by_cases hx : x = k'
      · subst hx; simp [graphGet_cons_self]
      · simp [graphGet_cons_ne _ _ _ _ hx, hx]
    · rw [graphInsert]
      simp only [if_neg hk]
      by_cases hx : x = k'
      · subst hx
        have hxk : x ≠ k := fun h => hk (h ▸ rfl)
        simp [graphGet_cons_self, hxk]
      · rw [graphGet_cons_ne _ _ _ _ hx, graphGet_cons_ne _ _ _ _ hx, ih]

theorem graphInsert_keys (g : List (String × List String)) (k v : String) :
    (graphInsert g k v).map (·.1) =
      if k ∈ g.map (·.1) then g.map (·.1) else g.map (·.1) ++ [k] := by
  induction g with
  | nil => simp [graphInsert]
  | cons p rest ih =>
    obtain ⟨k', vs⟩ := p
    by_cases hk : k' = k
    · subst hk
      rw [graphInsert]
      simp
    · rw [graphInsert]
      simp only [if_neg hk, List.map_cons, ih]
      have : (k ∈ k' :: rest.map (·.1)) ↔ (k ∈ rest.map (·.1)) := by
        constructor
        · intro h
          rcases List.mem_cons.mp h with h | h
          · exact absurd h.symm hk
          · exact h
        · exact fun h => List.mem_cons_of_mem _ h
      by_cases hmem : k ∈ rest.map (·.1) <;> simp [hmem, this]

theorem depsFold_get (tid : String) : ∀ (deps : List String)
    (g : List (String × List String)) (x n : String),
    n ∈ graphGet (deps.foldl (fun g dep => graphInsert g dep tid) g) x ↔
      n ∈ graphGet g x ∨ (x ∈ deps ∧ n = tid) := by
  intro deps
  induction deps with
  | nil => simp
  | cons d ds ih =>
    intro g x n
    rw [List.foldl_cons, ih, graphGet_graphInsert]
    by_cases hx : x = d
    · subst hx
      rw [if_pos rfl]
      simp only [List.mem_append, List.mem_cons, List.mem_singleton]
      tauto
    · simp only [if_neg hx, List.mem_cons]
      tauto

theorem tasksFold_get : ∀ (tasks : List GraphTask) (g0 : List (String × List String))
    (x n : String),
    n ∈ graphGet (tasks.foldl
      (fun g t => t.dependencies.foldl (fun g dep => graphInsert g dep t.id) g) g0) x ↔
      n ∈ graphGet g0 x ∨ ∃ t ∈ tasks, t.id = n ∧ x ∈ t.dependencies := by
  intro tasks
  induction tasks with
  | nil => simp
  | cons t ts ih =>
    intro g0 x n
    rw [List.foldl_cons, ih, depsFold_get]
    simp only [List.mem_cons]
    constructor
    · rintro ((h | ⟨hx, rfl⟩) | ⟨t', ht', rfl, hx⟩)
      · exact Or.inl h
      · exact Or.inr ⟨t, Or.inl rfl, rfl, hx⟩
      · exact Or.inr ⟨t', Or.inr ht', rfl, hx⟩
    · rintro (h | ⟨t', ht' | ht', rfl, hx⟩)
      · exact Or.inl (Or.inl h)
      · subst ht'
        exact Or.inl (Or.inr ⟨hx, rfl⟩)
      · exact Or.inr ⟨t', ht', rfl, hx⟩

theorem buildGraph_get (tasks : List GraphTask) (x n : String) :
    n ∈ graphGet (buildGraph tasks) x ↔ DependsOn tasks x n := by
  unfold buildGraph DependsOn
  rw [tasksFold_get]
  simp [graphGet]

theorem graphInsert_keys_nodup {g : List (String × List String)} {k v : String}
    (h : (g.map (·.1)).Nodup) : ((graphInsert g k v).map (·.1)).Nodup := by
  rw [graphInsert_keys]
  by_cases hk : k ∈ g.map (·.1)
  · simpa [hk] using h
  · simp [hk, List.nodup_append, h]

theorem graphInsert_keys_mem (g : List (String × List String)) (k v x : String) :
    x ∈ (graphInsert g k v).map (·.1) ↔ x ∈ g.map (·.1) ∨ x = k := by
  rw [graphInsert_keys]
  by_cases hk : k ∈ g.map (·.1)
  · simp only [if_pos hk]
    constructor
    · exact fun h => Or.inl h
    · rintro (h | rfl)
      · exact h
      · exact hk
  · simp [hk]

theorem depsFold_keys (tid : String) : ∀ (deps : List String)
    (g : List (String × List String)) (x : String),
    x ∈ ((deps.foldl (fun g dep => graphInsert g dep tid) g).map (·.1)) ↔
      x ∈ g.map (·.1) ∨ x ∈ deps := by
  intro deps
  induction deps with
  | nil => simp
  | cons d ds ih =>
    intro g x
    rw [List.foldl_cons, ih, graphInsert_keys_mem]
    simp [List.mem_cons]
    tauto

theorem tasksFold_keys : ∀ (tasks : List GraphTask) (g0 : List (String × List String))
    (x : String),
    x ∈ ((tasks.foldl
      (fun g t => t.dependencies.foldl (fun g dep => graphInsert g dep t.id) g) g0).map (·.1)) ↔
      x ∈ g0.map (·.1) ∨ ∃ t ∈ tasks, x ∈ t.dependencies := by
  intro tasks
  induction tasks with
  | nil => simp
  | cons t ts ih =>
    intro g0 x
    rw [List.foldl_cons, ih, depsFold_keys]
    simp only [List.mem_cons]
    constructor
    · rintro ((h | h) | ⟨t', ht', hx⟩)
      · exact Or.inl h
      · exact Or.inr ⟨t, Or.inl rfl, h⟩
      · exact Or.inr ⟨t', Or.inr ht', hx⟩
    · rintro (h | ⟨t', ht' | ht', hx⟩)
      · exact Or.inl (Or.inl h)
      · subst ht'
        exact Or.inl (Or.inr hx)
      · exact Or.inr ⟨t', ht', hx⟩

theorem buildGraph_keys_mem (tasks : List GraphTask) (x : String) :
    x ∈ ((buildGraph tasks).map (·.1)) ↔ ∃ t ∈ tasks, x ∈ t.dependencies := by
  unfold buildGraph
  rw [tasksFold_keys]
  simp

theorem depsFold_keys_nodup (tid : String) : ∀ (deps : List String)
    (g : List (String × List String)), (g.map (·.1)).Nodup →
    (((deps.foldl (fun g dep => graphInsert g dep tid) g)).map (·.1)).Nodup := by
  intro deps
  induction deps with
  | nil => exact fun g h => h
  | cons d ds ih =>
    intro g h
    rw [List.foldl_cons]
    exact ih _ (graphInsert_keys_nodup h)

theorem buildGraph_keys_nodup (tasks : List GraphTask) :
    ((buildGraph tasks).map (·.1)).Nodup := by
  unfold buildGraph
  have general : ∀ (ts : List GraphTask) (g0 : List (String × List String)),
      (g0.map (·.1)).Nodup →
      ((ts.foldl
        (fun g t => t.dependencies.foldl (fun g dep => graphInsert g dep t.id) g) g0).map
          (·.1)).Nodup := by
    intro ts
    induction ts with
    | nil => exact fun g0 h => h
    | cons t tail ih =>
      intro g0 h
      rw [List.foldl_cons]
      exact ih _ (depsFold_keys_nodup t.id t.dependencies g0 h)
  exact general tasks [] (by simp)

theorem graphGet_nil (x : String) : graphGet [] x = [] := rfl

theorem graphGet_eq_nil_of_not_mem_keys :
    ∀ (g : List (String × List String)) (x : String), x ∉ g.map (·.1) → graphGet g x = [] := by
  intro g
  induction g with
  | nil => intro x _; rfl
  | cons p rest ih =>
    intro x hx
    have hx1 : x ≠ p.1 := fun h => hx (by simp [h])
    have hx2 : x ∉ rest.map (·.1) := fun h => hx (by simp [h])
    obtain ⟨k, vs⟩ := p
    rw [graphGet_cons_ne _ _ _ _ hx1]
    exact ih x hx2

theorem sum_map_ite (k : String) (c : ℤ) (h : String → ℤ) :
    ∀ (l : List String), l.Nodup →
      (l.map (fun m => if m = k then c else h m)).sum =
        (l.map h).sum + (if k ∈ l then c - h k else 0) := by
  intro l
  induction l with
  | nil => simp
  | cons a t ih =>
    intro hnd
    obtain ⟨hna, hndt⟩ := List.nodup_cons.mp hnd
    by_cases hak : a = k
    · subst hak
      have ht : t.map (fun m => if m = a then c else h m) = t.map h := by
        apply List.map_congr_left
        intro m hm
        rw [if_neg (fun (hma : m = a) => hna (hma ▸ hm))]
      have hkt : a ∉ t := hna
      rw [List.map_cons, List.sum_cons, if_pos rfl, ht, List.map_cons, List.sum_cons,
        if_pos (List.mem_cons_self a t)]
      ring
    · rw [List.map_cons, List.sum_cons, if_neg hak, ih hndt, List.map_cons, List.sum_cons]
      have hmem : (k ∈ a :: t) ↔ (k ∈ t) := by
        constructor
        · intro hk
          rcases List.mem_cons.mp hk with hk | hk
          · exact absurd hk.symm hak
          · exact hk
        · exact fun hk => List.mem_cons_of_mem _ hk
      by_cases hkt : k ∈ t
      · rw [if_pos hkt, if_pos (hmem.mpr hkt)]
        ring
      · rw [if_neg hkt, if_neg (fun hk => hkt (hmem.mp hk))]
        ring

theorem cnt_cons (k : String) (vs : List String) (rest : List (String × List String))
    (m n : String) :
    cnt ((k, vs) :: rest) m n = if m = k then (vs.count n : ℤ) else cnt rest m n := by
  by_cases hm : m = k
  · subst hm
    simp [cnt, graphGet_cons_self]
  · simp [cnt, graphGet_cons_ne _ _ _ _ hm, hm]

theorem inDegrees_cons (k : String) (vs : List String) (rest : List (String × List String))
    (n : String) :
    inDegrees ((k, vs) :: rest) n = (vs.count n : ℤ) + inDegrees rest n := by
  simp [inDegrees]

theorem cnt_sum_le : ∀ (g : List (String × List String)), (g.map (·.1)).Nodup →
    ∀ (n : String) (l : List String), l.Nodup →
      ((l.map (fun m => cnt g m n)).sum ≤ inDegrees g n ∧
       (((l.map (fun m => cnt g m n)).sum = inDegrees g n) → ∀ m, 0 < cnt g m n → m ∈ l) ∧
       ((∀ m, 0 < cnt g m n → m ∈ l) → (l.map (fun m => cnt g m n)).sum = inDegrees g n)) := by
  intro g
  induction g with
  | nil =>
    intro _ n l _
    refine ⟨?_, ?_, ?_⟩ <;> simp [cnt, graphGet_nil, inDegrees]
  | cons p rest ih =>
    obtain ⟨k, vs⟩ := p
    intro hgnd n l hlnd
    have hgnd2 : (k :: rest.map (·.1)).Nodup := by
      have heq : ((k, vs) :: rest).map (·.1) = k :: rest.map (·.1) := rfl
      rwa [heq] at hgnd
    obtain ⟨hk, hrestnd⟩ := List.nodup_cons.mp hgnd2
    have hcnt0 : cnt rest k n = 0 := by
      simp [cnt, graphGet_eq_nil_of_not_mem_keys rest k hk]
    have hsplit : (l.map (fun m => cnt ((k, vs) :: rest) m n)).sum =
        (l.map (fun m => cnt rest m n)).sum + (if k ∈ l then (vs.count n : ℤ) else 0) := by
      have hmapeq : l.map (fun m => cnt ((k, vs) :: rest) m n) =
          l.map (fun m => if m = k then (vs.count n : ℤ) else cnt rest m n) := by
        apply List.map_congr_left
        intro m _
        exact cnt_cons k vs rest m n
      rw [hmapeq, sum_map_ite k _ _ l hlnd, hcnt0]
      by_cases hkl : k ∈ l <;> simp [hkl]
    obtain ⟨iha, ihb, ihc⟩ := ih hrestnd n l hlnd
    have hvc : (0:ℤ) ≤ (vs.count n : ℤ) := Int.ofNat_nonneg _
    refine ⟨?_, ?_, ?_⟩
    · rw [hsplit, inDegrees_cons]
      by_cases hkl : k ∈ l
      · rw [if_pos hkl]; linarith
      · rw [if_neg hkl]; linarith
    · intro heq m hm
      rw [hsplit, inDegrees_cons] at heq
      have hiftight : (if k ∈ l then (vs.count n : ℤ) else 0) ≤ (vs.count n : ℤ) := by
        by_cases hkl : k ∈ l <;> simp [hkl, hvc]
      have hresteq : (l.map (fun m => cnt rest m n)).sum = inDegrees rest n := by linarith
      have hif : (if k ∈ l then (vs.count n : ℤ) else 0) = (vs.count n : ℤ) := by linarith
      rw [cnt_cons] at hm
      by_cases hmk : m = k
      · subst hmk
        rw [if_pos rfl] at hm
        by_cases hkl : m ∈ l
        · exact hkl
        · rw [if_neg hkl] at hif
          omega
      · rw [if_neg hmk] at hm
        exact ihb hresteq m hm
    · intro hall
      rw [hsplit, inDegrees_cons]
      have hrest : ∀ m, 0 < cnt rest m n → m ∈ l := by
        intro m hm
        have hmk : m ≠ k := by
          intro hmk
          subst hmk
          omega
        apply hall
        rw [cnt_cons, if_neg hmk]
        exact hm
      rw [ihc hrest]
      by_cases hvz : (0:ℤ) < (vs.count n : ℤ)
      · have hkl : k ∈ l := by
          apply hall
          rw [cnt_cons, if_pos rfl]
          exact hvz
        rw [if_pos hkl]
        ring
      · have hz : (vs.count n : ℤ) = 0 := by omega
        rw [hz]
        by_cases hkl : k ∈ l <;> simp [hkl]

/-- `topoStep` on an empty neighbor list is the identity. -/
theorem topoStep_nil (indeg : String → ℤ) (queue : List String) :
    topoStep indeg queue [] = (indeg, queue) := rfl

/-- One unfolding of the neighbor fold of `topoStep`. -/
theorem topoStep_cons (indeg : String → ℤ) (queue : List String) (nb : String)
    (tl : List String) :
    topoStep indeg queue (nb :: tl) =
      topoStep (fun n => if n = nb then indeg nb - 1 else indeg n)
        (if indeg nb - 1 = 0 then queue ++ [nb] else queue) tl := rfl

/-- Characterization of one dequeued node's neighbor pass: every neighbor's
in-degree drops by its multiplicity in the neighbor list, and the nodes
appended to the queue are exactly those whose counter passes through 0. -/
theorem topoStep_spec : ∀ (nbl : List String) (indeg : String → ℤ) (queue : List String),
    (topoStep indeg queue nbl).1 = (fun x => indeg x - (nbl.count x : ℤ)) ∧
    ∃ newly : List String, (topoStep indeg queue nbl).2 = queue ++ newly ∧ newly.Nodup ∧
      ∀ x, x ∈ newly ↔ (1 ≤ indeg x ∧ indeg x ≤ (nbl.count x : ℤ)) := by
  intro nbl
  induction nbl with
  | nil =>
    intro indeg queue
    refine ⟨by funext x; simp [topoStep_nil], [], by simp [topoStep_nil], List.nodup_nil, ?_⟩
    intro x
    rw [List.count_nil]
    constructor
    · intro h
      exact absurd h (List.not_mem_nil x)
    · intro h
      exfalso
      omega
  | cons nb tl ih =>
    intro indeg queue
    rw [topoStep_cons]
    refine ⟨?_, ?_⟩
    · obtain ⟨hfst, -⟩ := ih (fun n => if n = nb then indeg nb - 1 else indeg n)
        (if indeg nb - 1 = 0 then queue ++ [nb] else queue)
      rw [hfst]
      funext x
      dsimp only
      by_cases hx : x = nb
      · subst hx
        rw [if_pos rfl, List.count_cons_self]
        push_cast
        ring
      · rw [if_neg hx, List.count_cons_of_ne hx]
    · by_cases hd : indeg nb - 1 = 0
      · rw [if_pos hd]
        obtain ⟨-, newly1, hsnd, hnd1, hmem1⟩ := ih
          (fun n => if n = nb then indeg nb - 1 else indeg n) (queue ++ [nb])
        refine ⟨nb :: newly1, ?_, ?_, ?_⟩
        · rw [hsnd, List.append_assoc, List.singleton_append]
        · refine List.nodup_cons.mpr ⟨?_, hnd1⟩
          intro hmem
          have h1 := (hmem1 nb).mp hmem
          rw [if_pos rfl] at h1
          omega
        · intro x
          rw [List.mem_cons, hmem1 x]
          by_cases hx : x = nb
          · subst hx
            rw [if_pos rfl, List.count_cons_self]
            push_cast
            constructor
            · intro h
              omega
            · intro h
              exact Or.inl rfl
          · rw [if_neg hx, List.count_cons_of_ne hx]
            constructor
            · rintro (h | h)
              · exact absurd h hx
              · exact h
            · exact fun h => Or.inr h
      · rw [if_neg hd]
        obtain ⟨-, newly1, hsnd, hnd1, hmem1⟩ := ih
          (fun n => if n = nb then indeg nb - 1 else indeg n) queue
        refine ⟨newly1, hsnd, hnd1, ?_⟩
        intro x
        rw [hmem1 x]
        by_cases hx : x = nb
        · subst hx
          rw [if_pos rfl, List.count_cons_self]
          push_cast
          omega
        · rw [if_neg hx, List.count_cons_of_ne hx]

/-- One dequeue of Kahn's loop preserves the invariant `KInv`. -/
theorem kinv_step {g : List (String × List String)} {keys : List String}
    (hgnd : (g.map (·.1)).Nodup)
    (hgv : ∀ m n, n ∈ graphGet g m → n ∈ keys)
    {current : String} {rest : List String} {indeg : String → ℤ} {ord : List String}
    (inv : KInv g keys (current :: rest) indeg ord) :
    KInv g keys (topoStep indeg rest (graphGet g current)).2
      (topoStep indeg rest (graphGet g current)).1 (ord ++ [current]) := by
  obtain ⟨hfst, newly, hsnd, hndn, hmemn0⟩ := topoStep_spec (graphGet g current) indeg rest
  have hmemn : ∀ x, x ∈ newly ↔ (1 ≤ indeg x ∧ indeg x ≤ cnt g current x) := hmemn0
  have hst1 : ∀ x, (topoStep indeg rest (graphGet g current)).1 x =
      indeg x - cnt g current x := by
    intro x
    rw [hfst]
    rfl
  have haux := List.nodup_append.mp inv.hnd
  have hordnd : ord.Nodup := haux.1
  have hdisj : ord.Disjoint (current :: rest) := haux.2.2
  have hco : current ∉ ord := fun h => hdisj h (List.mem_cons_self current rest)
  have hocnd : (ord ++ [current]).Nodup := by
    rw [List.nodup_append]
    refine ⟨hordnd, List.nodup_singleton current, ?_⟩
    intro a ha hac
    rw [List.mem_singleton] at hac
    subst hac
    exact hco ha
  have hcnt_nonneg : ∀ m n, (0:ℤ) ≤ cnt g m n := fun m n => Int.natCast_nonneg _
  have hcur_in : current ∈ current :: rest := List.mem_cons_self current rest
  have hcnt_cur_zero : ∀ n, (∀ m, 0 < cnt g m n → m ∈ ord) → cnt g current n = 0 := by
    intro n h
    by_contra hne
    exact hco (h current (lt_of_le_of_ne (hcnt_nonneg current n) (Ne.symm hne)))
  have hindeg_nonneg : ∀ n, 0 ≤ indeg n := by
    intro n
    rw [inv.hind n]
    have h := (cnt_sum_le g hgnd n ord hordnd).1
    linarith
  have hsum_oc : ∀ n, ((ord ++ [current]).map (fun m => cnt g m n)).sum =
      (ord.map (fun m => cnt g m n)).sum + cnt g current n := by
    intro n
    rw [List.map_append, List.sum_append]
    simp
  have hindeg_ge : ∀ n, cnt g current n ≤ indeg n := by
    intro n
    rw [inv.hind n]
    have h := (cnt_sum_le g hgnd n (ord ++ [current]) hocnd).1
    rw [hsum_oc n] at h
    linarith
  refine ⟨?_, ?_, ?_, ?_, ?_, ?_, ?_, ?_, ?_⟩
  · intro n hn
    rw [hsnd] at hn
    rcases List.mem_append.mp hn with h | h
    · exact inv.hqk n (List.mem_cons_of_mem current h)
    · have h1 := (hmemn n).mp h
      have h2 : (1:ℤ) ≤ ((graphGet g current).count n : ℤ) := le_trans h1.1 h1.2
      have hpos : 0 < (graphGet g current).count n := by omega
      exact hgv current n (List.count_pos_iff.mp hpos)
  · intro n hn
    rcases List.mem_append.mp hn with h | h
    · exact inv.hok n h
    · rw [List.mem_singleton] at h
      subst h
      exact inv.hqk n hcur_in
  · rw [hsnd]
    have hshape : ord ++ current :: rest = (ord ++ [current]) ++ rest := by
      rw [List.append_assoc, List.singleton_append]
    have hbig : ((ord ++ [current]) ++ rest).Nodup := hshape ▸ inv.hnd
    rw [← List.append_assoc, List.nodup_append]
    refine ⟨hbig, hndn, ?_⟩
    intro a ha hanew
    have h1 := (hmemn a).mp hanew
    have hz : indeg a = 0 := by
      rcases List.mem_append.mp ha with h | h
      · rcases List.mem_append.mp h with h2 | h2
        · exact inv.hoz a h2
        · rw [List.mem_singleton] at h2
          subst h2
          exact inv.hqz a hcur_in
      · exact inv.hqz a (List.mem_cons_of_mem current h)
    omega
  · intro n
    rw [hst1 n, inv.hind n, hsum_oc n]
    ring
  · intro n hn
    rw [hsnd] at hn
    rw [hst1 n]
    rcases List.mem_append.mp hn with h | h
    · have hz : indeg n = 0 := inv.hqz n (List.mem_cons_of_mem current h)
      have hc : cnt g current n = 0 :=
        hcnt_cur_zero n (inv.hqe n (List.mem_cons_of_mem current h))
      omega
    · have h1 := (hmemn n).mp h
      have h2 := hindeg_ge n
      omega
  · intro n hn
    rw [hst1 n]
    rcases List.mem_append.mp hn with h | h
    · have hz : indeg n = 0 := inv.hoz n h
      have hc : cnt g current n = 0 := by
        by_contra hne
        have hpos : 0 < cnt g current n :=
          lt_of_le_of_ne (hcnt_nonneg current n) (Ne.symm hne)
        exact hco (inv.hord n h current hpos).1
      omega
    · rw [List.mem_singleton] at h
      subst h
      have hz : indeg n = 0 := inv.hqz n hcur_in
      have hc : cnt g n n = 0 := hcnt_cur_zero n (inv.hqe n hcur_in)
      omega
  · intro n hnk hno hnq
    rw [hsnd] at hnq
    rw [hst1 n]
    have hno1 : n ∉ ord := fun h => hno (List.mem_append_left _ h)
    have hnc : n ≠ current := fun h => hno (List.mem_append_right _ (List.mem_singleton.mpr h))
    have hnr : n ∉ rest := fun h => hnq (List.mem_append_left _ h)
    have hnn : n ∉ newly := fun h => hnq (List.mem_append_right _ h)
    have hne : indeg n ≠ 0 := inv.hcomp n hnk hno1 (fun h => by
      rcases List.mem_cons.mp h with h1 | h1
      · exact hnc h1
      · exact hnr h1)
    have hnonneg := hindeg_nonneg n
    have h3 : ¬(1 ≤ indeg n ∧ indeg n ≤ cnt g current n) := fun h => hnn ((hmemn n).mpr h)
    have h4 := hcnt_nonneg current n
    omega
  · intro n hn m hm
    rcases List.mem_append.mp hn with h | h
    · obtain ⟨hmo, hlt⟩ := inv.hord n h m hm
      refine ⟨List.mem_append_left _ hmo, ?_⟩
      rw [List.indexOf_append_of_mem hmo, List.indexOf_append_of_mem h]
      exact hlt
    · rw [List.mem_singleton] at h
      subst h
      have hmo : m ∈ ord := inv.hqe n hcur_in m hm
      refine ⟨List.mem_append_left _ hmo, ?_⟩
      rw [List.indexOf_append_of_mem hmo, List.indexOf_append_of_not_mem hco]
      have h1 : List.indexOf m ord < ord.length := List.indexOf_lt_length.mpr hmo
      rw [show List.indexOf n [n] = 0 from List.indexOf_cons_self n []]
      omega
  · intro n hn m hm
    rw [hsnd] at hn
    rcases List.mem_append.mp hn with h | h
    · exact List.mem_append_left _ (inv.hqe n (List.mem_cons_of_mem current h) m hm)
    · have h1 := (hmemn n).mp h
      have h2 := hindeg_ge n
      have heqq : indeg n = cnt g current n := le_antisymm h1.2 h2
      have heq2 : ((ord ++ [current]).map (fun m => cnt g m n)).sum = inDegrees g n := by
        rw [hsum_oc n]
        have h3 := inv.hind n
        linarith
      exact (cnt_sum_le g hgnd n (ord ++ [current]) hocnd).2.1 heq2 m hm

/-- `topoLoop` with no fuel returns the accumulated order. -/
theorem topoLoop_zero (g : List (String × List String)) (queue : List String)
    (indeg : String → ℤ) (ord : List String) : topoLoop g 0 queue indeg ord = ord := rfl

/-- `topoLoop` with an empty queue returns the accumulated order. -/
theorem topoLoop_succ_nil (g : List (String × List String)) (fuel : ℕ)
    (indeg : String → ℤ) (ord : List String) : topoLoop g (fuel + 1) [] indeg ord = ord := rfl

/-- One unfolding of `topoLoop` on a non-empty queue. -/
theorem topoLoop_succ_cons (g : List (String × List String)) (fuel : ℕ) (current : String)
    (queue : List String) (indeg : String → ℤ) (ord : List String) :
    topoLoop g (fuel + 1) (current :: queue) indeg ord =
      topoLoop g fuel (topoStep indeg queue (graphGet g current)).2
        (topoStep indeg queue (graphGet g current)).1 (ord ++ [current]) := rfl

/-- Main loop lemma: from any state satisfying `KInv` with enough fuel, on a
graph whose edge relation is well-founded and whose endpoint names all lie in
`keys`, the Kahn loop emits a permutation of `keys` placing every in-neighbor
strictly before its target. -/
theorem topoLoop_spec {g : List (String × List String)} {keys : List String}
    (hknd : keys.Nodup) (hgnd : (g.map (·.1)).Nodup)
    (hgk : ∀ m n, 0 < cnt g m n → m ∈ keys)
    (hgv : ∀ m n, n ∈ graphGet g m → n ∈ keys)
    (hwf : WellFounded (fun m n => 0 < cnt g m n)) :
    ∀ (fuel : ℕ) (queue : List String) (indeg : String → ℤ) (ord : List String),
      KInv g keys queue indeg ord → keys.length ≤ fuel + ord.length →
      ((topoLoop g fuel queue indeg ord).Perm keys ∧
        ∀ n ∈ topoLoop g fuel queue indeg ord, ∀ m, 0 < cnt g m n →
          m ∈ topoLoop g fuel queue indeg ord ∧
          (topoLoop g fuel queue indeg ord).indexOf m <
            (topoLoop g fuel queue indeg ord).indexOf n) := by
  intro fuel
  induction fuel with
  | zero =>
    intro queue indeg ord inv hlen
    rw [topoLoop_zero]
    have hordnd : ord.Nodup := (List.nodup_append.mp inv.hnd).1
    have hsp : List.Subperm ord keys :=
      List.subperm_of_subset hordnd (fun a ha => inv.hok a ha)
    have hperm : ord.Perm keys := hsp.perm_of_length_le (by simpa using hlen)
    exact ⟨hperm, fun n hn m hm => inv.hord n hn m hm⟩
  | succ fuel ih =>
    intro queue indeg ord inv hlen
    cases queue with
    | nil =>
      rw [topoLoop_succ_nil]
      have hordnd : ord.Nodup := by
        have h := inv.hnd
        simpa using h
      have hcover : ∀ n ∈ keys, n ∈ ord := by
        by_contra hnc
        push_neg at hnc
        obtain ⟨n0, hn0k, hn0o⟩ := hnc
        obtain ⟨nm, hnmS, hmin⟩ := hwf.has_min {n | n ∈ keys ∧ n ∉ ord} ⟨n0, hn0k, hn0o⟩
        obtain ⟨hnmk, hnmo⟩ := hnmS
        have hne : indeg nm ≠ 0 := inv.hcomp nm hnmk hnmo (List.not_mem_nil nm)
        have hnonneg : 0 ≤ indeg nm := by
          rw [inv.hind nm]
          have h := (cnt_sum_le g hgnd nm ord hordnd).1
          linarith
        have hpos : 0 < indeg nm := lt_of_le_of_ne hnonneg (Ne.symm hne)
        have hneq : (ord.map (fun m => cnt g m nm)).sum ≠ inDegrees g nm := by
          have h := inv.hind nm
          omega
        have hnall : ¬ ∀ m, 0 < cnt g m nm → m ∈ ord :=
          fun hall => hneq ((cnt_sum_le g hgnd nm ord hordnd).2.2 hall)
        push_neg at hnall
        obtain ⟨m, hmpos, hmno⟩ := hnall
        exact hmin m ⟨hgk m nm hmpos, hmno⟩ hmpos
      have h1 : List.Subperm ord keys :=
        List.subperm_of_subset hordnd (fun a ha => inv.hok a ha)
      have h2 : List.Subperm keys ord := List.subperm_of_subset hknd hcover
      exact ⟨h1.antisymm h2, fun n hn m hm => inv.hord n hn m hm⟩
    | cons current rest =>
      rw [topoLoop_succ_cons]
      have inv2 := kinv_step hgnd hgv inv
      have hlen2 : keys.length ≤ fuel + (ord ++ [current]).length := by
        rw [List.length_append, List.length_singleton]
        omega
      exact ih (topoStep indeg rest (graphGet g current)).2
        (topoStep indeg rest (graphGet g current)).1 (ord ++ [current]) inv2 hlen2

/-- The invariant holds at the loop entry of `topological_sort`. -/
theorem kinv_init {g : List (String × List String)} {keys : List String}
    (hknd : keys.Nodup) (hgnd : (g.map (·.1)).Nodup) :
    KInv g keys (keys.filter (fun n => inDegrees g n == 0)) (inDegrees g) [] := by
  refine ⟨?_, ?_, ?_, ?_, ?_, ?_, ?_, ?_, ?_⟩
  · intro n hn
    exact (List.mem_filter.mp hn).1
  · intro n hn
    exact absurd hn (List.not_mem_nil n)
  · rw [List.nil_append]
    exact hknd.filter _
  · intro n
    simp
  · intro n hn
    exact beq_iff_eq.mp (List.mem_filter.mp hn).2
  · intro n hn
    exact absurd hn (List.not_mem_nil n)
  · intro n hnk hno hnq hz
    exact hnq (List.mem_filter.mpr ⟨hnk, beq_iff_eq.mpr hz⟩)
  · intro n hn
    exact absurd hn (List.not_mem_nil n)
  · intro n hn m hm
    exfalso
    have hz : inDegrees g n = 0 := beq_iff_eq.mp (List.mem_filter.mp hn).2
    have hle := (cnt_sum_le g hgnd n [m] (List.nodup_singleton m)).1
    simp at hle
    omega

/-- Inserting an already-duplicate-free key list leaves it unchanged. -/
theorem insertKeys_aux {α : Type} [DecidableEq α] :
    ∀ (l acc : List α), (∀ a ∈ acc, a ∉ l) → l.Nodup →
      l.foldl (fun acc x => if x ∈ acc then acc else acc ++ [x]) acc = acc ++ l := by
  intro l
  induction l with
  | nil =>
    intro acc h1 h2
    simp
  | cons x t ih =>
    intro acc hdisj hnd
    obtain ⟨hxt, hndt⟩ := List.nodup_cons.mp hnd
    rw [List.foldl_cons]
    have hxacc : x ∉ acc := fun hx => hdisj x hx (List.mem_cons_self x t)
    rw [if_neg hxacc, ih (acc ++ [x]) ?_ hndt]
    · rw [List.append_assoc, List.singleton_append]
    · intro a ha hat
      rcases List.mem_append.mp ha with h | h
      · exact hdisj a h (List.mem_cons_of_mem x hat)
      · rw [List.mem_singleton] at h
        subst h
        exact hxt hat

/-- `insertKeys` is the identity on duplicate-free lists. -/
theorem insertKeys_of_nodup {α : Type} [DecidableEq α] (l : List α) (h : l.Nodup) :
    insertKeys l = l := by
  unfold insertKeys
  rw [insertKeys_aux l [] (by simp) h]
  simp

/-- Under closed dependency ids, every in-neighbor of the dependents graph is
a declared task id. -/
theorem buildGraph_in_neighbor_mem {tasks : List GraphTask}
    (hdeps : ∀ t ∈ tasks, ∀ d ∈ t.dependencies, d ∈ tasks.map (·.id)) :
    ∀ m n, 0 < cnt (buildGraph tasks) m n → m ∈ tasks.map (·.id) := by
  intro m n hpos
  have h0 : (0:ℤ) < ((graphGet (buildGraph tasks) m).count n : ℤ) := hpos
  have h1 : 0 < (graphGet (buildGraph tasks) m).count n := by exact_mod_cast h0
  have hdep := (buildGraph_get tasks m n).mp (List.count_pos_iff.mp h1)
  unfold DependsOn at hdep
  obtain ⟨t, ht, htid, hmd⟩ := hdep
  exact hdeps t ht m hmd

/-- Every dependent stored in the graph's buckets is a declared task id. -/
theorem buildGraph_out_neighbor_mem (tasks : List GraphTask) :
    ∀ m n, n ∈ graphGet (buildGraph tasks) m → n ∈ tasks.map (·.id) := by
  intro m n hmem
  have hdep := (buildGraph_get tasks m n).mp hmem
  unfold DependsOn at hdep
  obtain ⟨t, ht, htid, hmd⟩ := hdep
  exact htid ▸ List.mem_map_of_mem (·.id) ht

/-- Acyclicity of the declared dependency relation transfers to the edge
relation of the built graph. -/
theorem buildGraph_cnt_wf {tasks : List GraphTask}
    (hacyc : WellFounded (fun m n => DependsOn tasks m n)) :
    WellFounded (fun m n => 0 < cnt (buildGraph tasks) m n) := by
  refine Subrelation.wf (fun {m n} h => ?_) hacyc
  have h0 : (0:ℤ) < ((graphGet (buildGraph tasks) m).count n : ℤ) := h
  have h1 : 0 < (graphGet (buildGraph tasks) m).count n := by exact_mod_cast h0
  exact (buildGraph_get tasks m n).mp (List.count_pos_iff.mp h1)

/-- C2: on every task list with distinct ids whose dependency ids all refer
to listed tasks and whose dependency relation is acyclic (well-founded),
`topological_sort` succeeds with a permutation of all task ids in which
every dependency is placed strictly before each of its dependents. -/
theorem topological_sort_correct (tasks : List GraphTask)
    (hnd : (tasks.map (·.id)).Nodup)
    (hdeps : ∀ t ∈ tasks, ∀ d ∈ t.dependencies, d ∈ tasks.map (·.id))
    (hacyc : WellFounded (fun m n => DependsOn tasks m n)) :
    ∃ ord, topological_sort tasks = Except.ok ord ∧
      ord.Perm (tasks.map (·.id)) ∧
      ∀ t ∈ tasks, ∀ d ∈ t.dependencies, ord.indexOf d < ord.indexOf t.id := by
  have hkeys : taskIds tasks = tasks.map (·.id) := insertKeys_of_nodup _ hnd
  have hgnd := buildGraph_keys_nodup tasks
  have hgk := buildGraph_in_neighbor_mem hdeps
  have hgv := buildGraph_out_neighbor_mem tasks
  have hwf := buildGraph_cnt_wf hacyc
  obtain ⟨hperm, hord⟩ := topoLoop_spec hnd hgnd hgk hgv hwf
    (tasks.map (·.id)).length
    ((tasks.map (·.id)).filter (fun n => inDegrees (buildGraph tasks) n == 0))
    (inDegrees (buildGraph tasks)) [] (kinv_init hnd hgnd) (by simp)
  refine ⟨topoLoop (buildGraph tasks) (tasks.map (·.id)).length
    ((tasks.map (·.id)).filter (fun n => inDegrees (buildGraph tasks) n == 0))
    (inDegrees (buildGraph tasks)) [], ?_, hperm, ?_⟩
  · unfold topological_sort topoSortA mkAnalyzer
    dsimp only
    rw [hkeys, if_pos hperm.length_eq]
  · intro t ht d hd
    have hdep : DependsOn tasks d t.id := ⟨t, ht, rfl, hd⟩
    have hmem : t.id ∈ graphGet (buildGraph tasks) d := (buildGraph_get tasks d t.id).mpr hdep
    have hpos : 0 < cnt (buildGraph tasks) d t.id := by
      have h1 : 0 < (graphGet (buildGraph tasks) d).count t.id := List.count_pos_iff.mpr hmem
      show (0:ℤ) < ((graphGet (buildGraph tasks) d).count t.id : ℤ)
      exact_mod_cast h1
    have htid : t.id ∈ topoLoop (buildGraph tasks) (tasks.map (·.id)).length
        ((tasks.map (·.id)).filter (fun n => inDegrees (buildGraph tasks) n == 0))
        (inDegrees (buildGraph tasks)) [] :=
      hperm.mem_iff.mpr (List.mem_map_of_mem (·.id) ht)
    exact (hord t.id htid d hpos).2

/-- The C2 theorem applied to the concrete two-task instance. -/
theorem topological_sort_correct_witness :
    ∃ ord, topological_sort twoTasks = Except.ok ord ∧
      ord.Perm (twoTasks.map (·.id)) ∧
      ∀ t ∈ twoTasks, ∀ d ∈ t.dependencies, ord.indexOf d < ord.indexOf t.id := by
  apply topological_sort_correct twoTasks (by decide) (by decide)
  have accA : Acc (fun m n => DependsOn twoTasks m n) "A" := by
    constructor
    intro y hy
    unfold DependsOn at hy
    obtain ⟨t, ht, htid, hyd⟩ := hy
    unfold twoTasks at ht
    rcases List.mem_cons.mp ht with h1 | h1
    · subst h1
      exact absurd htid (by decide)
    · rcases List.mem_cons.mp h1 with h2 | h2
      · subst h2
        exact absurd hyd (List.not_mem_nil y)
      · exact absurd h2 (List.not_mem_nil t)
  constructor
  intro a
  constructor
  intro y hy
  unfold DependsOn at hy
  obtain ⟨t, ht, htid, hyd⟩ := hy
  unfold twoTasks at ht
  rcases List.mem_cons.mp ht with h1 | h1
  · subst h1
    have hy2 : y = "A" := by simpa using hyd
    subst hy2
    exact accA
  · rcases List.mem_cons.mp h1 with h2 | h2
    · subst h2
      exact absurd hyd (List.not_mem_nil y)
    · exact absurd h2 (List.not_mem_nil t)

theorem strLower_medium : strLower "medium" = "medium" := by decide

theorem priorityWeight_medium : priorityWeight "medium" = 4 := by
  unfold priorityWeight
  rw [if_neg (by decide), if_neg (by decide), if_pos rfl]

theorem c1_score_f1 : priorityScores c1features "f1" = 5 := by
  norm_num [priorityScores, c1features, priorityScore, c1f1, c1f2, featPoints, pyOrQ,
    strLower_medium, priorityWeight_medium, show ¬("f1" = "f2") by decide]

theorem c1_score_f2 : priorityScores c1features "f2" = 20/11 := by
  norm_num [priorityScores, c1features, priorityScore, c1f1, c1f2, featPoints, pyOrQ,
    strLower_medium, priorityWeight_medium, show ¬("f2" = "f1") by decide]

theorem c1_ids_sorted :
    sortByLe (fun a b => decide (priorityScores c1features b ≤ priorityScores c1features a))
      (c1features.map (·.id)) = ["f1", "f2"] := by
  rw [show c1features.map (·.id) = ["f1", "f2"] from rfl]
  simp only [sortByLe, insertLe, decide_eq_true_eq]
  simp only [c1_score_f1, c1_score_f2]
  norm_num

theorem c1_sorted :
    sortFeaturesByPriority c1features (priorityScores c1features)
      (buildDependencyGraph c1features c1deps) = [c1f2, c1f1] := by
  unfold sortFeaturesByPriority
  rw [c1_ids_sorted]
  rfl

theorem c1_alloc :
    allocateFeaturesToSprints [c1f2, c1f1] c1sprints (buildDependencyGraph c1features c1deps) =
      [{ featureId := "f2", featureTitle := "", sprintId := "s2", sprintName := "",
         points := 10, priority := "medium" },
       { featureId := "f1", featureTitle := "", sprintId := "s1", sprintName := "",
         points := 3, priority := "medium" }] := by
  norm_num [allocateFeaturesToSprints, allocateStep, pickGo, c1sprints, c1f1, c1f2,
    featPoints, pyOrQ, graphGet, assocSet, sprintCaps, List.lookup,
    show buildDependencyGraph c1features c1deps = [("f1", ["f2"]), ("f2", [])] from rfl,
    show ¬("s1" = "s2") by decide, show ¬("s2" = "s1") by decide,
    show ¬("f1" = "f2") by decide, show ¬("f2" = "f1") by decide]

/-- C1 counterexample: in `optimize`, feature `f1` (3 points, depending on
`f2`) is placed in sprint `s1` (order index 0) while its dependency `f2`
(10 points) is placed in sprint `s2` (order index 1): the assigned bucket
index is strictly below the dependency's bucket index. -/
theorem allocator_breaks_dependency_bucket_order :
    (optimize c1features c1sprints c1deps).assignments.map (fun a => (a.featureId, a.sprintId)) =
      [("f2", "s2"), ("f1", "s1")] ∧
    "f2" ∈ graphGet (buildDependencyGraph c1features c1deps) "f1" ∧
    sprintIndex c1sprints "s1" < sprintIndex c1sprints "s2" := by
  refine ⟨?_, by decide, by decide⟩
  have h : (optimize c1features c1sprints c1deps).assignments =
      allocateFeaturesToSprints
        (sortFeaturesByPriority c1features (priorityScores c1features)
          (buildDependencyGraph c1features c1deps))
        c1sprints (buildDependencyGraph c1features c1deps) := rfl
  rw [h, c1_sorted, c1_alloc]
  rfl

theorem pickGo_cons (caps alloc : String → ℚ) (dependency_sprints : List String)
    (points : ℚ) (s : Sprint) (rest : List Sprint) (best : Option Sprint) :
    pickGo caps alloc dependency_sprints points (s :: rest) best =
      if alloc s.id + points ≤ caps s.id then
        if s.id ∈ dependency_sprints then some s
        else match best with
          | none => pickGo caps alloc dependency_sprints points rest (some s)
          | some b => pickGo caps alloc dependency_sprints points rest (some b)
      else pickGo caps alloc dependency_sprints points rest best := rfl

/-- C1 amended: the sprint scan takes a sprint that already hosts one of
the feature's dependencies whenever such a sprint still has capacity for
it; only when no dependency sprint fits (or no dependency is assigned) can
the feature land in an earlier sprint, so the bucket-ordering invariant as
stated does not hold. -/
theorem pick_sprint_prefers_dependency_sprints (caps alloc : String → ℚ)
    (dependency_sprints : List String) (points : ℚ) (sprints : List Sprint)
    (best : Option Sprint) :
    (∃ s, pickGo caps alloc dependency_sprints points sprints best = some s ∧
        s.id ∈ dependency_sprints ∧ alloc s.id + points ≤ caps s.id) ∨
    (∀ s ∈ sprints, s.id ∈ dependency_sprints → ¬(alloc s.id + points ≤ caps s.id)) := by
  induction sprints generalizing best with
  | nil => exact Or.inr (fun s hs => absurd hs (List.not_mem_nil s))
  | cons s rest ih =>
    rw [pickGo_cons]
    by_cases hfit : alloc s.id + points ≤ caps s.id
    · rw [if_pos hfit]
      by_cases hdep : s.id ∈ dependency_sprints
      · rw [if_pos hdep]
        exact Or.inl ⟨s, rfl, hdep, hfit⟩
      · rw [if_neg hdep]
        have step : ∀ b : Option Sprint,
            (∃ s', pickGo caps alloc dependency_sprints points rest b = some s' ∧
                s'.id ∈ dependency_sprints ∧ alloc s'.id + points ≤ caps s'.id) ∨
            (∀ s' ∈ s :: rest, s'.id ∈ dependency_sprints →
              ¬(alloc s'.id + points ≤ caps s'.id)) := by
          intro b
          rcases ih b with h | h
          · exact Or.inl h
          · refine Or.inr (fun s' hs' hdep' => ?_)
            rcases List.mem_cons.mp hs' with rfl | hs'
            · exact absurd hdep' hdep
            · exact h s' hs' hdep'
        cases best with
        | none => exact step (some s)
        | some b => exact step (some b)
    · rw [if_neg hfit]
      rcases ih best with h | h
      · exact Or.inl h
      · refine Or.inr (fun s' hs' hdep' => ?_)
        rcases List.mem_cons.mp hs' with rfl | hs'
        · exact hfit
        · exact h s' hs' hdep'

set_option maxRecDepth 10000

/-- C7 counterexample: with an empty task list and empty roster,
`balance_workload` returns a normal empty result — and with an empty
backlog, `suggest_stories_for_sprint` returns a full default payload —
instead of failing with a ValidationError. -/
theorem empty_inputs_return_default_results :
    balanceWorkload none [] [] =
      { balanced_assignments := [], balance_score := 0, team_utilization := [] } ∧
    (suggestStoriesForSprint [] 10 [] none zeroRng).1 =
      { suggested_stories := [], total_story_points := 0, team_capacity := 10,
        capacity_utilization := "0%", predicted_completion_probability := 0,
        risk_factors := ["No major risks identified"], alternative_selections := [] } := by
  constructor
  · rfl
  · norm_num [suggestStoriesForSprint, calculateTeamCapacity, pyOrQ,
      show optimizeStorySelection [] 10 [] 200 zeroRng = ([], zeroRng) from rfl,
      calculateSprintLoad, simulateSprintOutcome, assessRisks, pctString, pyRound]
    rfl

/-- C7 amended: an empty task list or an empty roster makes
`balance_workload` return the empty result record immediately — no
exception of any kind is raised and no partial plan is built. -/
theorem balance_workload_empty_guard (model : Option (List ℚ → ℚ)) (tasks : List Task)
    (team_members : List Developer) (h : tasks = [] ∨ team_members = []) :
    balanceWorkload model tasks team_members =
      { balanced_assignments := [], balance_score := 0, team_utilization := [] } := by
  unfold balanceWorkload
  rw [if_pos h]

/-- Witness for the amended C7 statement. -/
theorem balance_workload_empty_guard_witness :
    balanceWorkload none [] [{ user_id := some "u1" }] =
      { balanced_assignments := [], balance_score := 0, team_utilization := [] } :=
  balance_workload_empty_guard none [] [{ user_id := some "u1" }] (Or.inl rfl)

/-- C8: the story selector reads no state beyond its inputs and the two
ambient generators, which this embedding makes explicit; hence two runs
with the same inputs and the same generator state produce the identical
ranked shortlist (same candidate subsets in the same order). -/
theorem optimize_story_selection_deterministic (backlog : List NStory) (capacity : ℚ)
    (team_members : List Developer) (iterations : ℕ) (rng1 rng2 : RngState)
    (h : rng1 = rng2) :
    optimizeStorySelection backlog capacity team_members iterations rng1 =
      optimizeStorySelection backlog capacity team_members iterations rng2 := by
  rw [h]

/-- Witness for C8 at a concrete seed and backlog. -/
theorem optimize_story_selection_deterministic_witness :
    optimizeStorySelection [] 10 [] 200 zeroRng =
      optimizeStorySelection [] 10 [] 200 zeroRng ∧
    optimizeStorySelection [] 10 [] 200 zeroRng = ([], zeroRng) :=
  ⟨optimize_story_selection_deterministic [] 10 [] 200 zeroRng zeroRng rfl, rfl⟩

theorem list_sum_facts : ∀ (l : List ℚ), (∀ x ∈ l, 0 ≤ x ∧ x ≤ 1) →
    (l.map (fun x => x^2)).sum ≤ l.sum ∧ 0 ≤ l.sum ∧ l.sum ≤ (l.length : ℚ) := by
  intro l
  induction l with
  | nil => intro _; simp
  | cons a t ih =>
    intro h
    obtain ⟨ha0, ha1⟩ := h a (by simp)
    obtain ⟨h1, h2, h3⟩ := ih (fun x hx => h x (by simp [hx]))
    refine ⟨?_, ?_, ?_⟩ <;> simp only [List.map_cons, List.sum_cons, List.length_cons] <;>
      push_cast <;> nlinarith

theorem list_sum_sub_sq (c : ℚ) : ∀ (l : List ℚ),
    (l.map (fun x => (x - c)^2)).sum =
      (l.map (fun x => x^2)).sum - 2*c*l.sum + (l.length : ℚ) * c^2 := by
  intro l
  induction l with
  | nil => simp
  | cons a t ih =>
    simp only [List.map_cons, List.sum_cons, List.length_cons, ih]
    push_cast
    ring

theorem list_sum_sq_nonneg (c : ℚ) (l : List ℚ) :
    0 ≤ (l.map (fun x => (x - c)^2)).sum :=
  List.sum_nonneg (by
    intro x hx
    obtain ⟨y, _, rfl⟩ := List.mem_map.mp hx
    exact sq_nonneg _)

/-- C10: for a non-empty team whose stored workloads are non-negative (as
the data model requires), each clamped utilization lies in [0, 1], the
variance is at most 1/4, and the balance score lies in [0.75, 1]. -/
theorem balance_score_bounds (team_state : List Developer) (hne : team_state ≠ [])
    (hw : ∀ m ∈ team_state, 0 ≤ m.current_workload.getD 0) :
    3/4 ≤ calculate_balance_score team_state ∧ calculate_balance_score team_state ≤ 1 := by
  unfold calculate_balance_score
  have hbounds : ∀ x ∈ team_state.map (fun member =>
      pyMin (member.current_workload.getD 0 /
        pyMax (member.capacity.getD (1/1000)) (1/1000)) 1), 0 ≤ x ∧ x ≤ 1 := by
    intro x hx
    obtain ⟨m, hm, rfl⟩ := List.mem_map.mp hx
    constructor
    · have hc : (0:ℚ) < pyMax (m.capacity.getD (1/1000)) (1/1000) :=
        lt_of_lt_of_le (by norm_num) (le_pyMax_right _ _)
      exact le_pyMin (div_nonneg (hw m hm) hc.le) (by norm_num)
    · exact pyMin_le_right _ _
  set workloads := team_state.map (fun member =>
    pyMin (member.current_workload.getD 0 /
      pyMax (member.capacity.getD (1/1000)) (1/1000)) 1) with hwl
  have hne' : workloads ≠ [] := by
    rw [hwl]
    simpa using hne
  dsimp only
  rw [if_neg hne']
  set n : ℚ := (workloads.length : ℚ) with hn_def
  have hn : 0 < n := by
    rw [hn_def]
    exact_mod_cast List.length_pos.mpr hne'
  obtain ⟨hsq, hs0, hsn⟩ := list_sum_facts workloads hbounds
  have hvar_nonneg : 0 ≤ (workloads.map (fun x => (x - workloads.sum / n)^2)).sum / n :=
    div_nonneg (list_sum_sq_nonneg _ _) hn.le
  have hsn' : workloads.sum ≤ n := by
    rw [hn_def]
    exact hsn
  have hvar_le : (workloads.map (fun x => (x - workloads.sum / n)^2)).sum / n ≤ 1/4 := by
    rw [list_sum_sub_sq, ← hn_def]
    have hident : (workloads.map (fun x => x^2)).sum - 2*(workloads.sum/n)*workloads.sum +
        n*(workloads.sum/n)^2 =
        ((workloads.map (fun x => x^2)).sum * n - workloads.sum^2) / n := by
      field_simp
      ring
    rw [hident, div_div, div_le_iff (mul_pos hn hn)]
    nlinarith [sq_nonneg (n - 2 * workloads.sum),
      mul_le_mul_of_nonneg_right hsq hn.le, sq_nonneg workloads.sum, hn, hs0, hsn']
  constructor
  · have h34 : (3/4 : ℚ) ≤ 1 - (workloads.map (fun x => (x - workloads.sum / n)^2)).sum / n := by
      linarith
    exact le_trans h34 (le_pyMax_right _ _)
  · exact pyMax_le (by norm_num) (by linarith)

/-- Witness for C10 at a concrete two-member team. -/
theorem balance_score_bounds_witness :
    3/4 ≤ calculate_balance_score twoMembers ∧ calculate_balance_score twoMembers ≤ 1 :=
  balance_score_bounds twoMembers (by decide) (by
    intro m hm
    simp only [twoMembers, List.mem_cons, List.mem_singleton] at hm
    rcases hm with rfl | rfl | h
    · norm_num
    · norm_num
    · cases h)

end AgilPro
